import Mathlib

/-!
# A tutorial HTTP server: handlers, router and static file responder

Shallow embedding of `src/main.go` (`helloHandler`, `formHandler` and the
registrations of `main`) together with the functions of the Go standard
library they call (`net/http`, `net/url`, `fmt`, `path`, `path/filepath`,
`io/fs`, `unicode/utf8`), transcribed from the library's source as of the
current releases: the router is the routing tree of `ServeMux` (patterns,
`matchOrRedirect`, `findHandler` on the escaped path), `url.ParseQuery` limits
the number of parameters (10000 by default), `http.Error` deletes the
`Content-Length` header first, `Dir.Open` goes through `filepath.Localize`,
and `serveFile` answers 500 when the root is not a directory.  The `GODEBUG`
settings (`httpmuxgo121`, `urlmaxqueryparams`) have their default values.

Conventions.
* A Go `string` or `[]byte` is a list of `Char`, one `Char` per byte (the
  byte is the code of the `Char`).
* A handler is a function from the response writer and the request to the
  response writer after the call.
* Three library functions are not transcribed and are taken as parameters
  (`Lib`): `mime.ParseMediaType`, `strconv.Quote` and `stripHostPort`.
* The host file system is a parameter of the file responder (`FileSystem`):
  it says what opening a name gives.  Which file on disk a name leads to
  (symbolic links) and what a file holds are outside the model.
* The status code of the redirects the router answers with differs between
  releases of the library and is not modelled.
* Loops that cut a prefix off their input run on fuel, the length of the
  input; `parseQueryLoop_fuel`, `cleanLoop_fuel`, `parseSegments_fuel`,
  `matchPath_fuel`, `validStringLoop_fuel` and `validPathLoop_fuel` show that
  this fuel is enough.

The first part of the file holds the definitions, the second part the
theorems.
-/

set_option autoImplicit false

namespace GoServer

/-! # Part 1: definitions -/

/-- A Go string, byte by byte. -/
abbrev Str := List Char

/-! ## Response writer (`http.ResponseWriter`, as recorded by `httptest.ResponseRecorder`) -/

/-- State of a response writer: the header map, the status code once the
header has been written, and the bytes written to the body so far. -/
structure ResponseWriter where
  header : List (Str × Str)
  status : Option Nat
  body : Str
deriving DecidableEq, Repr

/-- A response writer nothing has been written to. -/
def ResponseWriter.fresh : ResponseWriter :=
  { header := [], status := none, body := [] }

/-- `w.Header().Set(key, value)`: replaces the values stored under `key`. -/
def ResponseWriter.SetHeader (w : ResponseWriter) (key value : Str) : ResponseWriter :=
  { w with header := (key, value) :: w.header.filter (fun kv => kv.1 ≠ key) }

/-- `w.Header().Del(key)`: removes the values stored under `key`. -/
def ResponseWriter.DelHeader (w : ResponseWriter) (key : Str) : ResponseWriter :=
  { w with header := w.header.filter (fun kv => kv.1 ≠ key) }

/-- `w.WriteHeader(code)`: the first call fixes the status code, later calls
are ignored. -/
def ResponseWriter.WriteHeader (w : ResponseWriter) (code : Nat) : ResponseWriter :=
  match w.status with
  | some _ => w
  | none => { w with status := some code }

/-- `w.Write(b)`: writes the header with status 200 when it has not been
written yet, then appends `b` to the body. -/
def ResponseWriter.Write (w : ResponseWriter) (b : Str) : ResponseWriter :=
  let w1 := w.WriteHeader 200
  { w1 with body := w1.body ++ b }

/-- The status code of the recorded response (`ResponseRecorder.Result`):
200 when the handler never wrote the header. -/
def ResponseWriter.code (w : ResponseWriter) : Nat :=
  w.status.getD 200

/-! ## `fmt` -/

/-- `fmt.Sprintf` for the verbs this program uses: `%v` applied to the next
operand prints the operand's text (for an error, its `Error()` string); every
other byte of the format is copied.  Operands are passed as their text. -/
def Sprintf : Str → List Str → Str
  | [], _ => []
  | '%' :: 'v' :: rest, a :: args => a ++ Sprintf rest args
  | c :: rest, args => c :: Sprintf rest args

/-- `fmt.Fprintf(w, format, args...)`. -/
def Fprintf (w : ResponseWriter) (format : Str) (args : List Str) : ResponseWriter :=
  w.Write (Sprintf format args)

/-- `fmt.Fprintln(w, s)`: the operand followed by a newline. -/
def Fprintln (w : ResponseWriter) (s : Str) : ResponseWriter :=
  w.Write (s ++ ['\n'])

/-! ## `net/http`: status codes and `http.Error` -/

/-- The status codes of `net/http` the program and the library code use. -/
def StatusOK : Nat := 200
def StatusBadRequest : Nat := 400
def StatusForbidden : Nat := 403
def StatusNotFound : Nat := 404
def StatusMethodNotAllowed : Nat := 405
def StatusInternalServerError : Nat := 500

/-- `http.Error(w, error, code)`: deletes `Content-Length`, sets
`Content-Type` and `X-Content-Type-Options`, writes the header with `code`,
then `fmt.Fprintln(w, error)`. -/
def Error (w : ResponseWriter) (error : Str) (code : Nat) : ResponseWriter :=
  let w0 := w.DelHeader "Content-Length".toList
  let w1 := w0.SetHeader "Content-Type".toList "text/plain; charset=utf-8".toList
  let w2 := w1.SetHeader "X-Content-Type-Options".toList "nosniff".toList
  let w3 := w2.WriteHeader code
  Fprintln w3 error

/-! ## Errors -/

/-- The error values the modelled library code produces. -/
inductive GoError where
  /-- Value `url.EscapeError(s)`. -/
  | escape (s : Str)
  /-- Value `fmt.Errorf("invalid semicolon separator in query")`. -/
  | invalidSemicolon
  /-- Value `errors.New("missing form body")`. -/
  | missingFormBody
  /-- Value `errors.New("http: POST too large")`. -/
  | postTooLarge
  /-- Value `errors.New("number of URL query parameters exceeded limit")`. -/
  | tooManyParams
  /-- Any other error (from `mime.ParseMediaType` or from reading the body),
  carrying its message. -/
  | other (msg : Str)
deriving DecidableEq, Repr

/-- The library functions taken as parameters. -/
structure Lib where
  /-- Function `mime.ParseMediaType`: the media type and the error. -/
  ParseMediaType : Str → Str × Option GoError
  /-- Function `strconv.Quote`. -/
  Quote : Str → Str
  /-- Function `stripHostPort` of `net/http` (it calls `net.SplitHostPort`). -/
  stripHostPort : Str → Str

/-- The `Error()` method; `EscapeError.Error` is
`"invalid URL escape " + strconv.Quote(string(e))`. -/
def GoError.Error (quote : Str → Str) : GoError → Str
  | .escape s => "invalid URL escape ".toList ++ quote s
  | .invalidSemicolon => "invalid semicolon separator in query".toList
  | .missingFormBody => "missing form body".toList
  | .postTooLarge => "http: POST too large".toList
  | .tooManyParams => "number of URL query parameters exceeded limit".toList
  | .other msg => msg

/-! ## `net/url`: query parsing -/

/-- `strings.Cut(s, sep)` for a one-byte separator: the text before the first
`sep` and the text after it; `(s, "")` when `sep` does not occur. -/
def Cut (s : Str) (sep : Char) : Str × Str :=
  match s with
  | [] => ([], [])
  | c :: cs => if c = sep then ([], cs) else ((c :: (Cut cs sep).1), (Cut cs sep).2)

/-- Function `ishex` of `net/url`. -/
def ishex (c : Char) : Bool :=
  ('0' ≤ c && c ≤ '9') || ('a' ≤ c && c ≤ 'f') || ('A' ≤ c && c ≤ 'F')

/-- Function `unhex` of `net/url`. -/
def unhex (c : Char) : Nat :=
  if '0' ≤ c && c ≤ '9' then c.toNat - '0'.toNat
  else if 'a' ≤ c && c ≤ 'f' then c.toNat - 'a'.toNat + 10
  else if 'A' ≤ c && c ≤ 'F' then c.toNat - 'A'.toNat + 10
  else 0

/-- First loop of `url.unescape` in query-component mode: counts the `%`
escapes, records whether a `+` occurs, and fails with `EscapeError` on a `%`
that is not followed by two hex digits (the error carries at most three bytes
starting at the `%`). -/
def unescapeScan : Str → Nat → Bool → Except GoError (Nat × Bool)
  | [], n, hasPlus => .ok (n, hasPlus)
  | c :: rest, n, hasPlus =>
    if c = '%' then
      match rest with
      | a :: b :: rest2 =>
        if !ishex a || !ishex b then .error (.escape [c, a, b])
        else unescapeScan rest2 (n + 1) hasPlus
      | _ => .error (.escape (c :: rest))
    else if c = '+' then unescapeScan rest n true
    else unescapeScan rest n hasPlus

/-- Second loop of `url.unescape` in query-component mode: decodes `%XX` to
the byte `unhex(X)<<4 | unhex(X)` and `+` to a space. -/
def unescapeBuild : Str → Str
  | [] => []
  | '%' :: a :: b :: rest => Char.ofNat (unhex a * 16 + unhex b) :: unescapeBuild rest
  | '+' :: rest => ' ' :: unescapeBuild rest
  | c :: rest => c :: unescapeBuild rest

/-- `url.QueryUnescape(s)`, that is `unescape(s, encodeQueryComponent)`. -/
def QueryUnescape (s : Str) : Except GoError Str :=
  match unescapeScan s 0 false with
  | .error e => .error e
  | .ok (n, hasPlus) => if n = 0 && !hasPlus then .ok s else .ok (unescapeBuild s)

/-- Type `url.Values`: a map from key to the list of its values. -/
abbrev Values := List (Str × List Str)

/-- The assignment `m[key] = append(m[key], vs...)`. -/
def Values.add : Values → Str → List Str → Values
  | [], key, vs => [(key, vs)]
  | (k, old) :: rest, key, vs =>
    if k = key then (k, old ++ vs) :: rest else (k, old) :: Values.add rest key vs

/-- The loop of `url.parseQuery(m, query)`, run for at
most `fuel` iterations.  Each iteration cuts the text up to the next `&` off
`query`; the state is the map, the error recorded so far and the rest of the
query. -/
def parseQueryLoop : Nat → Values → Option GoError → Str → Values × Option GoError
  | 0, m, err, _ => (m, err)
  | fuel + 1, m, err, query =>
    if query = [] then (m, err)
    else
      let key := (Cut query '&').1
      let query := (Cut query '&').2
      if ';' ∈ key then parseQueryLoop fuel m (some .invalidSemicolon) query
      else if key = [] then parseQueryLoop fuel m err query
      else
        let value := (Cut key '=').2
        let key := (Cut key '=').1
        match QueryUnescape key with
        | .error err1 => parseQueryLoop fuel m (if err = none then some err1 else err) query
        | .ok key =>
          match QueryUnescape value with
          | .error err1 => parseQueryLoop fuel m (if err = none then some err1 else err) query
          | .ok value => parseQueryLoop fuel (m.add key [value]) err query

/-- Constant `defaultMaxParams` of `net/url`. -/
def defaultMaxParams : Nat := 10000

/-- Function `urlParamsWithinMax` of `net/url` when the `GODEBUG` setting
`urlmaxqueryparams` is not set: `params <= defaultMaxParams`. -/
def urlParamsWithinMax (params : Nat) : Bool :=
  params ≤ defaultMaxParams

/-- `url.parseQuery(m, query)`: the test
`urlParamsWithinMax(strings.Count(query, "&") + 1)` first, then the loop.
Every iteration removes at least one byte of `query`, so `query.length`
iterations reach the end of the loop. -/
def parseQuery (m : Values) (query : Str) : Values × Option GoError :=
  if !urlParamsWithinMax (query.count '&' + 1) then (m, some .tooManyParams)
  else parseQueryLoop query.length m none query

/-- `url.ParseQuery(query)`: starts from an empty map. -/
def ParseQuery (query : Str) : Values × Option GoError :=
  parseQuery [] query

/-! ## `net/http`: requests and `ParseForm` -/

/-- Type `url.URL`, the fields the program and the router read.
`EscapedPath` is the value of the method `u.EscapedPath()`: `u.RawPath` when
that is a valid encoding of `u.Path`, else the default encoding of `u.Path`;
in both cases it unescapes to `u.Path`. -/
structure URL where
  Host : Str
  Path : Str
  EscapedPath : Str
  RawQuery : Str
deriving DecidableEq, Repr

/-- The request body `r.Body`: `nil`, or a reader that yields `data` and then
ends, with end-of-file (`err = none`) or with a read error.  `maxBytes` says
whether the reader is a `*maxBytesReader` (made by `http.MaxBytesReader`). -/
inductive Body where
  | nil
  | reader (maxBytes : Bool) (data : Str) (err : Option GoError)
deriving DecidableEq, Repr

/-- Type `http.Request`.  `contentType` is `r.Header.Get("Content-Type")`;
`PostForm` and `Form` are `none` for the nil map, as in every request made by
the server. -/
structure Request where
  Method : Str
  URL : URL
  Host : Str
  RequestURI : Str
  contentType : Str
  Body : Body
  PostForm : Option Values
  Form : Option Values
deriving DecidableEq, Repr

/-- `io.ReadAll(io.LimitReader(body, n))` on a reader yielding `data` then
`err`: the first `n` bytes without error when `data` has at least `n` bytes,
else all of `data` and `err`. -/
def readAllLimited (n : Nat) (data : Str) (err : Option GoError) : Str × Option GoError :=
  if n ≤ data.length then (data.take n, none) else (data, err)

/-- The form size limit of `parsePostForm`, `10 << 20` bytes. -/
def maxFormSize : Nat := 10 * 2 ^ 20

/-- The read of the body in `parsePostForm`, `b, e := io.ReadAll(reader)`:
the reader is the body itself for a `*maxBytesReader`, else
`io.LimitReader(r.Body, maxFormSize+1)`. -/
def readFormBody (maxBytes : Bool) (data : Str) (rerr : Option GoError) :
    Str × Option GoError :=
  if maxBytes then (data, rerr) else readAllLimited (maxFormSize + 1) data rerr

/-- The case `ct == "application/x-www-form-urlencoded"` of the switch in
`parsePostForm`; `err` is the error `mime.ParseMediaType` returned.  For a
`*maxBytesReader` the size limit is `1<<63 - 1`, which no body exceeds. -/
def parsePostFormUrlencoded (err : Option GoError) (maxBytes : Bool) (data : Str)
    (rerr : Option GoError) : Option Values × Option GoError :=
  match (readFormBody maxBytes data rerr).2 with
  | some e => (none, if err = none then some e else err)
  | none =>
    if !maxBytes && maxFormSize < (readFormBody maxBytes data rerr).1.length then
      (none, some .postTooLarge)
    else
      (some (ParseQuery (readFormBody maxBytes data rerr).1).1,
        if err = none then (ParseQuery (readFormBody maxBytes data rerr).1).2 else err)

/-- The argument `parsePostForm` passes to `mime.ParseMediaType`: the
`Content-Type` header, or `application/octet-stream` when it is empty. -/
def mediaTypeArg (r : Request) : Str :=
  if r.contentType = [] then "application/octet-stream".toList else r.contentType

/-- `http.parsePostForm(r)`: the parsed body (`none` for the nil map) and the
error.  The `multipart/form-data` case and the default case of the switch do
nothing. -/
def parsePostForm (lib : Lib) (r : Request) : Option Values × Option GoError :=
  match r.Body with
  | .nil => (none, some .missingFormBody)
  | .reader maxBytes data rerr =>
    if (lib.ParseMediaType (mediaTypeArg r)).1 = "application/x-www-form-urlencoded".toList then
      parsePostFormUrlencoded (lib.ParseMediaType (mediaTypeArg r)).2 maxBytes data rerr
    else (none, (lib.ParseMediaType (mediaTypeArg r)).2)

/-- The loop of `http.copyValues(dst, src)`. -/
def copyValues (dst src : Values) : Values :=
  src.foldl (fun d kv => d.add kv.1 kv.2) dst

/-- First block of `r.ParseForm()`, `if r.PostForm == nil { ... }`: the value
of `r.PostForm` after the block and the error so far. -/
def parseFormPost (lib : Lib) (r : Request) : Values × Option GoError :=
  match r.PostForm with
  | some pf => (pf, none)
  | none =>
    if r.Method = "POST".toList || r.Method = "PUT".toList || r.Method = "PATCH".toList then
      ((parsePostForm lib r).1.getD [], (parsePostForm lib r).2)
    else ([], none)

/-- `r.ParseForm()`: the request with `PostForm` and `Form` filled in, and
the error returned.  The second block, `if r.Form == nil { ... }`, parses the
URL query and keeps the first error. -/
def ParseForm (lib : Lib) (r : Request) : Request × Option GoError :=
  match r.Form with
  | some f => ({ r with PostForm := some (parseFormPost lib r).1, Form := some f },
      (parseFormPost lib r).2)
  | none =>
    ({ r with
        PostForm := some (parseFormPost lib r).1
        Form := some
          (if 0 < (parseFormPost lib r).1.length then
            copyValues (copyValues [] (parseFormPost lib r).1) (ParseQuery r.URL.RawQuery).1
          else (ParseQuery r.URL.RawQuery).1) },
      if (parseFormPost lib r).2 = none then (ParseQuery r.URL.RawQuery).2
      else (parseFormPost lib r).2)

/-! ## The handlers of `src/main.go` -/

/-- `helloHandler` (main.go, lines 13-24). -/
def helloHandler (w : ResponseWriter) (r : Request) : ResponseWriter :=
  if r.URL.Path ≠ "/hello".toList then
    Error w "404 not found".toList StatusNotFound
  else if r.Method ≠ "GET".toList then
    Error w "method is not accepted".toList StatusMethodNotAllowed
  else
    Fprintf w "Hello World".toList []

/-- `formHandler` (main.go, lines 26-36).  `ParseForm` leaves `r.Method`
unchanged, so the method test reads it from `r`. -/
def formHandler (lib : Lib) (w : ResponseWriter) (r : Request) : ResponseWriter :=
  match (ParseForm lib r).2 with
  | some err => Fprintf w "ParseForm() err: %v".toList [err.Error lib.Quote]
  | none =>
    if (ParseForm lib r).1.Method ≠ "POST".toList then
      Error w "method is not accepted".toList StatusMethodNotAllowed
    else
      Fprintf w "POST Request success".toList []

/-! ## `path.Clean` and `cleanPath` -/

/-- The inner loop of the `..` case of `path.Clean`, after `out.w--` left the
write index at `w`: `for out.w > dotdot && out.index(out.w) != '/' { out.w-- }`.
The result is the final write index. -/
def backtrack (buf : Str) (dotdot : Nat) : Nat → Nat
  | 0 => 0
  | w + 1 =>
    if dotdot < w + 1 && buf.getD (w + 1) '/' != '/' then backtrack buf dotdot w else w + 1

/-- The main loop of `path.Clean`, run for at most `fuel` iterations: `rest`
is `path[r:]`, `out` the bytes written so far (`out.w` is `out.length`),
`dotdot` the index where `..` must stop. -/
def cleanLoop (rooted : Bool) : Nat → Str → Str → Nat → Str
  | 0, _, out, _ => out
  | fuel + 1, rest, out, dotdot =>
    match rest with
    | [] => out
    | c :: tl =>
      if c = '/' then
        -- empty path element
        cleanLoop rooted fuel tl out dotdot
      else if c = '.' && (tl = [] || tl.head? = some '/') then
        -- . element
        cleanLoop rooted fuel tl out dotdot
      else if c = '.' && tl.head? = some '.' && (tl.tail = [] || tl.tail.head? = some '/') then
        -- .. element: remove to last /
        if dotdot < out.length then
          cleanLoop rooted fuel tl.tail (out.take (backtrack out dotdot (out.length - 1))) dotdot
        else if !rooted then
          let out1 := if 0 < out.length then out ++ ['/'] else out
          let out2 := out1 ++ ['.', '.']
          cleanLoop rooted fuel tl.tail out2 out2.length
        else
          cleanLoop rooted fuel tl.tail out dotdot
      else
        -- real path element: add slash if needed, copy element
        let out1 :=
          if (rooted && out.length != 1) || (!rooted && out.length != 0) then out ++ ['/'] else out
        cleanLoop rooted fuel (rest.dropWhile (fun x => x != '/'))
          (out1 ++ rest.takeWhile (fun x => x != '/')) dotdot

/-- `path.Clean(path)`.  Every iteration of the loop consumes at least one
byte, so `path.length` iterations reach the end of the path. -/
def Clean (path : Str) : Str :=
  match path with
  | [] => ['.']
  | c :: tl =>
    let out :=
      if c = '/' then cleanLoop true path.length tl ['/'] 1
      else cleanLoop false path.length path [] 0
    if out.length = 0 then ['.'] else out

/-- Function `cleanPath` of `net/http`: the canonical path for `p`,
eliminating `.` and `..` elements. -/
def cleanPath (p : Str) : Str :=
  if p = [] then ['/']
  else
    let p := if p.head? ≠ some '/' then '/' :: p else p
    let np := Clean p
    if p.getLast? = some '/' && np != ['/'] then
      if p.length = np.length + 1 && np.isPrefixOf p then p else np ++ ['/']
    else np

/-! ## `http.ServeMux` (the router) and its registration in `main` -/

/-- Second loop of `url.unescape` in path mode: decodes `%XX` to the byte
`unhex(X)<<4 | unhex(X)`; a `+` stays a `+`. -/
def unescapePathBuild : Str → Str
  | [] => []
  | c :: rest =>
    if c = '%' then
      match rest with
      | a :: b :: rest2 => Char.ofNat (unhex a * 16 + unhex b) :: unescapePathBuild rest2
      | _ => c :: rest
    else c :: unescapePathBuild rest

/-- `url.PathUnescape(s)`, that is `unescape(s, encodePathSegment)`.  The
first loop is the one of query mode (`unescapeScan`) but for the flag
`hasPlus`, which path mode never sets and which is not read here. -/
def PathUnescape (s : Str) : Except GoError Str :=
  match unescapeScan s 0 false with
  | .error e => .error e
  | .ok (n, _) => if n = 0 then .ok s else .ok (unescapePathBuild s)

/-- Function `pathUnescape` of `net/http`: the unescaped text, or the text
itself when it is not validly escaped. -/
def pathUnescape (path : Str) : Str :=
  match PathUnescape path with
  | .ok u => u
  | .error _ => path

/-- The handlers a request can be dispatched to. -/
inductive Handler where
  /-- Handler `http.FileServer(http.Dir("./static"))`. -/
  | fileServer
  /-- Handler `helloHandler`. -/
  | hello
  /-- Handler `formHandler`. -/
  | form
  /-- Handler `RedirectHandler(u.String(), code)` for the URL
  `u = &url.URL{Path: path, RawQuery: rawQuery}`.  The status code is a
  redirect status that differs between releases of the library and is not
  kept. -/
  | redirect (path rawQuery : Str)
  /-- Handler `NotFoundHandler()`. -/
  | notFound
deriving DecidableEq, Repr

/-- Type `segment` of a pattern: a literal (`s` is the text), a single
wildcard or a multi wildcard. -/
structure segment where
  s : Str
  wild : Bool
  multi : Bool
deriving DecidableEq, Repr

/-- Type `pattern` of `net/http`. -/
structure pattern where
  str : Str
  method : Str
  host : Str
  segments : List segment
deriving DecidableEq, Repr

/-- The loop of `parsePattern` over the path of a pattern without wildcards,
run for at most `fuel` iterations: a trailing slash gives the anonymous multi
wildcard, any other element a literal segment. -/
def parseSegments : Nat → Str → List segment
  | 0, _ => []
  | fuel + 1, rest =>
    match rest with
    | [] => []
    | _ :: r =>
      if r = [] then [{ s := [], wild := true, multi := true }]
      else
        { s := pathUnescape (r.takeWhile (fun x => x != '/')), wild := false, multi := false }
          :: parseSegments fuel (r.dropWhile (fun x => x != '/'))

/-- `parsePattern(s)` for a pattern without method and without wildcard, as
the patterns of `main` are: the host is the text before the first slash, the
path the rest.  The result is `none` where `parsePattern` returns an error
(empty pattern, no slash) and for the patterns this transcription leaves out
(a blank, a tab or a brace in the pattern). -/
def parsePattern (s : Str) : Option pattern :=
  if s = [] then none
  else if ' ' ∈ s ∨ '\t' ∈ s ∨ '{' ∈ s ∨ '}' ∈ s then none
  else if '/' ∉ s then none
  else
    some { str := s, method := [], host := s.takeWhile (fun x => x != '/'),
           segments := parseSegments s.length (s.dropWhile (fun x => x != '/')) }

/-- `p.lastSegment()`. -/
def pattern.lastSegment (p : pattern) : segment :=
  p.segments.getLastD { s := [], wild := false, multi := false }

/-- Type `routingNode`: a leaf holds a pattern and its handler, an interior
node maps a part of the request (host, method, path segment) to child nodes;
`multiChild` is the child with the multi wildcard and `emptyChild` the child
with the key `""`. -/
inductive routingNode where
  | mk (pattern : Option pattern) (handler : Option Handler)
      (children : List (Str × routingNode)) (multiChild : Option routingNode)
      (emptyChild : Option routingNode)

/-- The node `&routingNode{}`. -/
def routingNode.empty : routingNode :=
  .mk none none [] none none

/-- Field `n.pattern`. -/
def routingNode.pattern : routingNode → Option pattern
  | .mk p _ _ _ _ => p

/-- Field `n.handler`. -/
def routingNode.handler : routingNode → Option Handler
  | .mk _ h _ _ _ => h

/-- Field `n.children`. -/
def routingNode.children : routingNode → List (Str × routingNode)
  | .mk _ _ cs _ _ => cs

/-- Field `n.multiChild`. -/
def routingNode.multiChild : routingNode → Option routingNode
  | .mk _ _ _ mc _ => mc

/-- Field `n.emptyChild`. -/
def routingNode.emptyChild : routingNode → Option routingNode
  | .mk _ _ _ _ ec => ec

/-- `n.set(p, h)` on a node whose leaf fields are not set (else it panics). -/
def routingNode.set (n : routingNode) (p : GoServer.pattern) (h : Handler) : routingNode :=
  .mk (some p) (some h) n.children n.multiChild n.emptyChild

/-- `n.findChild(key)`. -/
def routingNode.findChild (n : routingNode) (key : Str) : Option routingNode :=
  if key = [] then n.emptyChild
  else (n.children.find? (fun kv => kv.1 = key)).map (fun kv => kv.2)

/-- `n.addChild(key)` followed by the update `f` of the child it returns: the
child with the key `""` is `emptyChild`, a missing child starts as the empty
node. -/
def routingNode.updateChild (n : routingNode) (key : Str) (f : routingNode → routingNode) :
    routingNode :=
  if key = [] then
    .mk n.pattern n.handler n.children n.multiChild (some (f (n.emptyChild.getD .empty)))
  else if n.children.any (fun kv => kv.1 = key) then
    .mk n.pattern n.handler
      (n.children.map (fun kv => if kv.1 = key then (kv.1, f kv.2) else kv))
      n.multiChild n.emptyChild
  else
    .mk n.pattern n.handler (n.children ++ [(key, f .empty)]) n.multiChild n.emptyChild

/-- `n.addSegments(segs, p, h)`. -/
def addSegments : List segment → pattern → Handler → routingNode → routingNode
  | [], p, h, n => n.set p h
  | seg :: segs, p, h, n =>
    if seg.multi then
      .mk n.pattern n.handler n.children (some (routingNode.empty.set p h)) n.emptyChild
    else if seg.wild then n.updateChild [] (addSegments segs p h)
    else n.updateChild seg.s (addSegments segs p h)

/-- `root.addPattern(p, h)`: the first level of the tree is the host, the
second the method, the remaining levels are the path. -/
def routingNode.addPattern (root : routingNode) (p : GoServer.pattern) (h : Handler) :
    routingNode :=
  root.updateChild p.host (fun n => n.updateChild p.method (addSegments p.segments p h))

/-- Function `firstSegment`: the first segment of the path, unescaped, and
the rest.  The path is taken to begin with a slash: its first byte is dropped
unseen. -/
def firstSegment (path : Str) : Str × Str :=
  if path = ['/'] then (['/'], [])
  else
    (pathUnescape (path.tail.takeWhile (fun x => x != '/')),
      path.tail.dropWhile (fun x => x != '/'))

/-- `n.matchPath(path, matches)`, run on `fuel` levels of the tree; the
values of the wildcards (`matches`) are not kept.  Every level takes at least
one byte off the path. -/
def matchPath : Nat → Option routingNode → Str → Option routingNode
  | 0, _, _ => none
  | _ + 1, none, _ => none
  | fuel + 1, some n, path =>
    if path = [] then
      if n.pattern.isNone then none else some n
    else
      match matchPath fuel (n.findChild (firstSegment path).1) (firstSegment path).2 with
      | some l => some l
      | none =>
        match (if (firstSegment path).1 ≠ ['/'] then
            matchPath fuel n.emptyChild (firstSegment path).2 else none) with
        | some l => some l
        | none => n.multiChild

/-- `n.matchMethodAndPath(method, path)`. -/
def matchMethodAndPath (n : Option routingNode) (method path : Str) : Option routingNode :=
  match n with
  | none => none
  | some n =>
    match matchPath (path.length + 1) (n.findChild method) path with
    | some l => some l
    | none =>
      match (if method = "HEAD".toList then
          matchPath (path.length + 1) (n.findChild "GET".toList) path else none) with
      | some l => some l
      | none => matchPath (path.length + 1) n.emptyChild path

/-- `root.match(host, method, path)`. -/
def routingNode.match (root : routingNode) (host method path : Str) : Option routingNode :=
  match (if host ≠ [] then matchMethodAndPath (root.findChild host) method path else none) with
  | some l => some l
  | none => matchMethodAndPath root.emptyChild method path

/-- Function `exactMatch`. -/
def exactMatch (n : Option routingNode) (path : Str) : Bool :=
  match n with
  | none => false
  | some n =>
    match n.pattern with
    | none => false
    | some p =>
      if !p.lastSegment.multi then true
      else if path.length > 0 && path.getLast? != some '/' then false
      else p.segments.length == path.count '/'

/-- Type `ServeMux`: the routing tree.  (The index used to find conflicting
patterns at registration is left out.) -/
structure ServeMux where
  tree : routingNode

/-- `mux.Handle(pattern, handler)`, that is `mux.register`: the pattern is
parsed and added to the tree; where the library panics the router is left as
it is. -/
def ServeMux.Handle (mux : ServeMux) (pattern : Str) (handler : Handler) : ServeMux :=
  match parsePattern pattern with
  | none => mux
  | some pat => { tree := mux.tree.addPattern pat handler }

/-- `mux.matchOrRedirect(host, method, path, u)`: the matching node and, when
`u` is given and `path` with a slash added has an exact match that `path`
has not, the URL to redirect to (its path and query). -/
def ServeMux.matchOrRedirect (mux : ServeMux) (host method path : Str) (u : Option URL) :
    Option routingNode × Option (Str × Str) :=
  match u with
  | none => (mux.tree.match host method path, none)
  | some u =>
    if !exactMatch (mux.tree.match host method path) path && !(path.getLast? == some '/') then
      if exactMatch (mux.tree.match host method (path ++ ['/'])) (path ++ ['/']) then
        (mux.tree.match host method (path ++ ['/']), some (cleanPath u.Path ++ ['/'], u.RawQuery))
      else (mux.tree.match host method path, none)
    else (mux.tree.match host method path, none)

/-- The handler of the node `findHandler` ends with: without a node the
library looks for patterns that match but for the method; the patterns of
`main` name no method, so the answer is `NotFoundHandler()`. -/
def nodeHandler (n : Option routingNode) : Handler :=
  match n with
  | none => .notFound
  | some n => n.handler.getD .notFound

/-- `mux.findHandler(r)`, the handler only. -/
def ServeMux.findHandler (lib : Lib) (mux : ServeMux) (r : Request) : Handler :=
  if r.Method = "CONNECT".toList then
    -- CONNECT requests are not canonicalized
    match (mux.matchOrRedirect r.URL.Host r.Method r.URL.EscapedPath (some r.URL)).2 with
    | some u => .redirect u.1 u.2
    | none => nodeHandler (mux.matchOrRedirect r.Host r.Method r.URL.EscapedPath none).1
  else
    -- all other requests have any port stripped and path cleaned
    match (mux.matchOrRedirect (lib.stripHostPort r.Host) r.Method
        (cleanPath r.URL.EscapedPath) (some r.URL)).2 with
    | some u => .redirect u.1 u.2
    | none =>
      if cleanPath r.URL.EscapedPath ≠ r.URL.EscapedPath then
        .redirect (cleanPath r.URL.EscapedPath) r.URL.RawQuery
      else
        nodeHandler (mux.matchOrRedirect (lib.stripHostPort r.Host) r.Method
          (cleanPath r.URL.EscapedPath) (some r.URL)).1

/-- What `mux.ServeHTTP(w, r)` does with a request: answers `400` itself when
`r.RequestURI` is `*`, else calls the handler `mux.findHandler(r)` selects. -/
inductive Dispatch where
  | badRequest
  | serve (h : Handler)
deriving DecidableEq, Repr

/-- `mux.ServeHTTP(w, r)`. -/
def ServeMux.ServeHTTP (lib : Lib) (mux : ServeMux) (r : Request) : Dispatch :=
  if r.RequestURI = ['*'] then .badRequest else .serve (mux.findHandler lib r)

/-- The router `main` builds (main.go, lines 43-45): `http.Handle` and
`http.HandleFunc` register on `DefaultServeMux`, which starts empty, and
`http.ListenAndServe(":8080", nil)` serves with it. -/
def DefaultServeMux : ServeMux :=
  ((({ tree := .empty } : ServeMux).Handle "/".toList .fileServer).Handle
    "/hello".toList .hello).Handle "/form".toList .form

/-! ## Syntactic validity of URL-encoded data -/

/-- Every `%` of the text is followed by two hex digits. -/
def wellEscaped : Str → Bool
  | [] => true
  | c :: rest =>
    if c = '%' then
      match rest with
      | a :: b :: rest2 => ishex a && ishex b && wellEscaped rest2
      | _ => false
    else wellEscaped rest

/-- Syntactically valid URL-encoded data, as the loop of `url.parseQuery`
accepts it: every percent escape is well formed and no `;` occurs. -/
def validQuery (s : Str) : Prop :=
  wellEscaped s = true ∧ ';' ∉ s

/-- The number of parameters of the text, one more than the number of its
`&`, is within the limit of the library, 10000. -/
def withinMaxParams (s : Str) : Prop :=
  s.count '&' + 1 ≤ defaultMaxParams

instance (s : Str) : Decidable (withinMaxParams s) :=
  inferInstanceAs (Decidable (s.count '&' + 1 ≤ defaultMaxParams))

instance (s : Str) : Decidable (validQuery s) :=
  inferInstanceAs (Decidable (wellEscaped s = true ∧ ';' ∉ s))

/-! ## Sample requests -/

/-- Stand-ins for the three library functions on the samples below: a media
type without parameters parses to itself without error, a printable text
without quotes is quoted by putting it between double quotes, and a host
without port is left as it is. -/
def sampleLib : Lib :=
  { ParseMediaType := fun ct => (ct, none)
    Quote := fun t => '"' :: t ++ ['"']
    stripHostPort := fun h => h }

/-- A request as `httptest.NewRequest` or the server makes it, for a path that
needs no escaping (so that the escaped path is the path): the body is a plain
reader ending with end-of-file, `PostForm` and `Form` are nil. -/
def NewRequest (method path rawQuery contentType body : String) : Request :=
  { Method := method.toList
    URL := { Host := [], Path := path.toList, EscapedPath := path.toList,
             RawQuery := rawQuery.toList }
    Host := "example.com".toList
    RequestURI := path.toList
    contentType := contentType.toList
    Body := .reader false body.toList none
    PostForm := none
    Form := none }

/-- A request as the server makes it for a request line whose path is
written with percent escapes: `escapedPath` is the path of the request line,
`path` what it unescapes to. -/
def NewEscapedRequest (method path escapedPath : String) : Request :=
  { NewRequest method path "" "" "" with
    URL := { Host := [], Path := path.toList, EscapedPath := escapedPath.toList, RawQuery := [] }
    RequestURI := escapedPath.toList }

/-! ## The static file responder: `http.FileServer(http.Dir("./static"))` -/

/-- The classes of file system error `toHTTPError` tells apart:
`fs.ErrNotExist`, `fs.ErrPermission`, anything else. -/
inductive FsError where
  | notExist
  | permission
  | other
deriving DecidableEq, Repr

/-- What `Dir.Open` followed by `f.Stat()` gives for a file name: an error
from `os.Open` (after `mapOpenError`), an error from `Stat`, or an open file
that is a directory or not. -/
inductive OpenResult where
  | error (e : FsError)
  | statError (e : FsError)
  | file (isDir : Bool)
deriving DecidableEq, Repr

/-- The file system of the host, as the server sees it: the result of
opening each file name (a name relative to the working directory).  The host
resolves the name, following symbolic links; which file on disk a name leads
to and what the file holds are not part of this type. -/
structure FileSystem where
  osOpen : Str → OpenResult

/-- Function `path.Base`. -/
def Base (path : Str) : Str :=
  if path = [] then ['.']
  else
    let stripped := (path.reverse.dropWhile (fun c => c = '/')).reverse
    let last := (stripped.reverse.takeWhile (fun c => c ≠ '/')).reverse
    if last = [] then ['/'] else last

/-- `filepath.Join(dir, name)` on Unix for a non-empty `dir`:
`Clean(dir + "/" + name)`; `filepath.Clean` is the algorithm of `path.Clean`. -/
def filepathJoin (dir name : Str) : Str :=
  Clean (dir ++ '/' :: name)

/-- Table `first` of `unicode/utf8` for a byte that is not ASCII: the size
of the encoding the byte starts and the range `acceptRanges` gives for its
second byte; `none` for a byte that starts no encoding (`xx`). -/
def utf8First (b : Nat) : Option (Nat × Nat × Nat) :=
  if 0xC2 ≤ b ∧ b ≤ 0xDF then some (2, 0x80, 0xBF)
  else if b = 0xE0 then some (3, 0xA0, 0xBF)
  else if 0xE1 ≤ b ∧ b ≤ 0xEC then some (3, 0x80, 0xBF)
  else if b = 0xED then some (3, 0x80, 0x9F)
  else if 0xEE ≤ b ∧ b ≤ 0xEF then some (3, 0x80, 0xBF)
  else if b = 0xF0 then some (4, 0x90, 0xBF)
  else if 0xF1 ≤ b ∧ b ≤ 0xF3 then some (4, 0x80, 0xBF)
  else if b = 0xF4 then some (4, 0x80, 0x8F)
  else none

/-- A continuation byte: between `locb` and `hicb`. -/
def utf8Cont (c : Char) : Bool :=
  0x80 ≤ c.toNat && c.toNat ≤ 0xBF

/-- `utf8.ValidString(s)`, run for at most `fuel` encodings; every encoding
takes at least one byte. -/
def validStringLoop : Nat → Str → Bool
  | 0, _ => true
  | fuel + 1, s =>
    match s with
    | [] => true
    | si :: rest =>
      if si.toNat < 0x80 then validStringLoop fuel rest
      else
        match utf8First si.toNat with
        | none => false
        | some (size, lo, hi) =>
          if s.length < size then false
          else if (rest.getD 0 'x').toNat < lo || hi < (rest.getD 0 'x').toNat then false
          else if size = 2 then validStringLoop fuel (rest.drop 1)
          else if !utf8Cont (rest.getD 1 'x') then false
          else if size = 3 then validStringLoop fuel (rest.drop 2)
          else if !utf8Cont (rest.getD 2 'x') then false
          else validStringLoop fuel (rest.drop 3)

/-- `utf8.ValidString(s)`. -/
def ValidString (s : Str) : Bool :=
  validStringLoop s.length s

/-- The loop of `fs.ValidPath` over the elements of the name, run for at
most `fuel` elements; every element but the last takes at least two bytes. -/
def validPathLoop : Nat → Str → Bool
  | 0, _ => false
  | fuel + 1, name =>
    if name.takeWhile (fun x => x != '/') = [] || name.takeWhile (fun x => x != '/') = ['.']
        || name.takeWhile (fun x => x != '/') = ['.', '.'] then false
    else if (name.takeWhile (fun x => x != '/')).length = name.length then true
    else validPathLoop fuel (name.drop ((name.takeWhile (fun x => x != '/')).length + 1))

/-- `fs.ValidPath(name)`. -/
def ValidPath (name : Str) : Bool :=
  if !ValidString name then false
  else if name = ['.'] then true
  else validPathLoop (name.length + 1) name

/-- `filepath.Localize(path)` on Unix: the path itself when it is valid and
holds no NUL byte, else an error. -/
def Localize (path : Str) : Option Str :=
  if !ValidPath path then none
  else if Char.ofNat 0 ∈ path then none
  else some path

/-- The path `Dir.Open` looks up under the root: `path.Clean("/"+name)[1:]`,
or `.` when that is empty. -/
def Dir.localPath (name : Str) : Str :=
  if (Clean ('/' :: name)).tail = [] then ['.'] else (Clean ('/' :: name)).tail

/-- The name `Dir(dir).Open(name)` passes to `os.Open` when the path is
valid: `filepath.Join(dir, path)`, with `.` for an empty `dir`. -/
def Dir.fullName (dir name : Str) : Str :=
  filepathJoin (if dir = [] then ['.'] else dir) (Dir.localPath name)

/-- `Dir(dir).Open(name)` and the `Stat` of the opened file.  A path that
`filepath.Localize` refuses gives the error `http: invalid or unsafe file
path`, which is neither `fs.ErrNotExist` nor `fs.ErrPermission`. -/
def Dir.Open (fs : FileSystem) (dir name : Str) : OpenResult :=
  match Localize (Dir.localPath name) with
  | none => .error .other
  | some path => fs.osOpen (filepathJoin (if dir = [] then ['.'] else dir) path)

/-- Function `toHTTPError`. -/
def toHTTPError (e : FsError) : Str × Nat :=
  match e with
  | .notExist => ("404 page not found".toList, StatusNotFound)
  | .permission => ("403 Forbidden".toList, StatusForbidden)
  | .other => ("500 Internal Server Error".toList, StatusInternalServerError)

/-- What `serveFile` answers: a redirect to a relative path (`localRedirect`;
the query of the request is added to the path), an error written with
`serveError`, the listing of the opened directory (`dirList`, or 304 on a
conditional request), or the content of the opened file (`serveContent`).
The last two carry the name given to `os.Open`. -/
inductive FileResponse where
  | localRedirect (newPath : Str)
  | error (msg : Str) (code : Nat)
  | dirList (fullName : Str)
  | serveContent (fullName : Str)
deriving DecidableEq, Repr

/-- The name of the index page of the directory `name`:
`strings.TrimSuffix(name, "/") + indexPage`. -/
def indexName (name : Str) : Str :=
  (if name.getLast? = some '/' then name.dropLast else name) ++ "/index.html".toList

/-- `serveFile(w, r, Dir(root), name, redirect)`; `urlPath` is `r.URL.Path`. -/
def serveFile (fs : FileSystem) (root urlPath name : Str) (redirect : Bool) : FileResponse :=
  if "/index.html".toList.isSuffixOf urlPath then .localRedirect "./".toList
  else
    match Dir.Open fs root name with
    | .error e => .error (toHTTPError e).1 (toHTTPError e).2
    | .statError e => .error (toHTTPError e).1 (toHTTPError e).2
    | .file isDir =>
      if redirect && isDir && urlPath.getLast? != some '/' then
        .localRedirect (Base urlPath ++ ['/'])
      else if redirect && !isDir && urlPath.getLast? == some '/' then
        if Base urlPath = ['/'] || Base urlPath = ['.'] then
          -- the file system maps a path like "/" or "/./" to a file
          .error "http: attempting to traverse a non-directory".toList StatusInternalServerError
        else .localRedirect ("../".toList ++ Base urlPath)
      else if isDir then
        if urlPath = [] || urlPath.getLast? != some '/' then
          .localRedirect (Base urlPath ++ ['/'])
        else
          -- use contents of index.html for directory, if present
          match Dir.Open fs root (indexName name) with
          | .file false => .serveContent (Dir.fullName root (indexName name))
          | .file true => .dirList (Dir.fullName root (indexName name))
          | _ => .dirList (Dir.fullName root name)
      else .serveContent (Dir.fullName root name)

/-- `fileHandler.ServeHTTP` for the handler `main` makes,
`http.FileServer(http.Dir("./static"))`. -/
def fileServer (fs : FileSystem) (r : Request) : FileResponse :=
  let upath := if r.URL.Path.head? ≠ some '/' then '/' :: r.URL.Path else r.URL.Path
  serveFile fs "./static".toList upath (Clean upath) true

/-- `strings.Split(s, "/")`. -/
def splitSlash : Str → List Str
  | [] => [[]]
  | c :: cs =>
    if c = '/' then [] :: splitSlash cs
    else
      match splitSlash cs with
      | [] => [[c]]
      | seg :: segs => (c :: seg) :: segs

/-- A path element that names a file or directory: not empty, not `.`, not
`..`. -/
def realElem (seg : Str) : Bool :=
  seg != [] && seg != ['.'] && seg != ['.', '.']

/-- The file name `n` lies under the directory `root`: it is `root`, or
`root` followed by path elements that name files, none of them `..`. -/
def underRoot (root n : Str) : Bool :=
  match splitSlash n with
  | [] => false
  | first :: rest => first == root && rest.all realElem

/-- A file system with no files. -/
def emptyFS : FileSystem :=
  { osOpen := fun _ => .error .notExist }

/-- A file system with the regular files `static/index.html`,
`static/etc/passwd` and, outside the root, `etc/passwd` and `secret.txt`. -/
def sampleFS : FileSystem :=
  { osOpen := fun n =>
      if n = "static".toList || n = "static/etc".toList || n = "etc".toList then .file true
      else if n = "static/index.html".toList || n = "static/etc/passwd".toList
        || n = "etc/passwd".toList || n = "secret.txt".toList then .file false
      else .error .notExist }

/-! ## Auxiliary definitions of the proofs -/

/-- The tail of `cleanPath`, after the slash has been put in front. -/
def cleanPathRooted (p : Str) : Str :=
  if p.getLast? = some '/' && Clean p != ['/'] then
    if p.length = (Clean p).length + 1 && (Clean p).isPrefixOf p then p else Clean p ++ ['/']
  else Clean p

/-- The leaf of the pattern `/hello` in the tree of `main`. -/
def helloLeaf : routingNode :=
  .mk (some { str := "/hello".toList, method := [], host := [],
              segments := [{ s := "hello".toList, wild := false, multi := false }] })
    (some .hello) [] none none

/-- The leaf of the pattern `/form` in the tree of `main`. -/
def formLeaf : routingNode :=
  .mk (some { str := "/form".toList, method := [], host := [],
              segments := [{ s := "form".toList, wild := false, multi := false }] })
    (some .form) [] none none

/-- The leaf of the pattern `/` in the tree of `main`. -/
def rootLeaf : routingNode :=
  .mk (some { str := "/".toList, method := [], host := [],
              segments := [{ s := [], wild := true, multi := true }] })
    (some .fileServer) [] none none

/-- The node under the empty host and the empty method in the tree of
`main`: its children are the first path segments. -/
def methodNode : routingNode :=
  .mk none none [("hello".toList, helloLeaf), ("form".toList, formLeaf)] (some rootLeaf) none

/-- The routing tree after the three registrations of `main`. -/
def mainTree : routingNode :=
  .mk none none [] none (some (.mk none none [] none (some methodNode)))

/-- The leaf the tree of `main` matches a path with. -/
def matchedLeaf (path : Str) : Option routingNode :=
  if path = [] then none
  else if (firstSegment path).1 = "hello".toList ∧ (firstSegment path).2 = [] then some helloLeaf
  else if (firstSegment path).1 = "form".toList ∧ (firstSegment path).2 = [] then some formLeaf
  else some rootLeaf

/-- A cleaned rooted path: a slash followed by nothing or by real elements
separated by single slashes. -/
def RootedClean (out : Str) : Prop :=
  ∃ t, out = '/' :: t ∧ (t = [] ∨ ∀ seg ∈ splitSlash t, realElem seg = true)

/-- No element of the path is `..`. -/
def NoDotDot (rest : Str) : Prop :=
  ['.', '.'] ∉ splitSlash rest

/-! # Part 2: theorems -/

/-! ## `url.ParseQuery` accepts exactly the valid texts -/

theorem Cut_snd_length (sep : Char) (q : Str) : (Cut q sep).2.length ≤ q.length - 1 := by
  induction q with
  | nil => simp [Cut]
  | cons c cs ih =>
    unfold Cut
    split_ifs with h
    · simp
    · simp only [List.length_cons, Nat.add_sub_cancel]
      omega

theorem Cut_fst_not_mem (sep : Char) (q : Str) : sep ∉ (Cut q sep).1 := by
  induction q with
  | nil => simp [Cut]
  | cons c cs ih =>
    unfold Cut
    split_ifs with h
    · simp
    · simp only [List.mem_cons, not_or]
      exact ⟨fun h2 => h h2.symm, ih⟩

theorem mem_Cut (x sep : Char) (hx : x ≠ sep) (q : Str) :
    x ∈ q ↔ (x ∈ (Cut q sep).1 ∨ x ∈ (Cut q sep).2) := by
  induction q with
  | nil => simp [Cut]
  | cons c cs ih =>
    unfold Cut
    split_ifs with h
    · subst h
      simp [hx]
    · simp only [List.mem_cons, ih]
      tauto

theorem Cut_cons (c sep : Char) (cs : Str) :
    Cut (c :: cs) sep = if c = sep then ([], cs) else (c :: (Cut cs sep).1, (Cut cs sep).2) := by
  rw [Cut]

theorem wellEscaped_percent (a b : Char) (r : Str) :
    wellEscaped ('%' :: a :: b :: r) = (ishex a && ishex b && wellEscaped r) := by
  simp [wellEscaped]

theorem wellEscaped_percent_one (a : Char) : wellEscaped ['%', a] = false := by
  simp [wellEscaped]

theorem wellEscaped_percent_nil : wellEscaped ['%'] = false := by
  simp [wellEscaped]

theorem wellEscaped_other (c : Char) (r : Str) (hc : c ≠ '%') :
    wellEscaped (c :: r) = wellEscaped r := by
  conv_lhs => unfold wellEscaped
  simp only [if_neg hc]

theorem wellEscaped_Cut (sep : Char) (h1 : sep ≠ '%') (h2 : ishex sep = false) (q : Str) :
    wellEscaped q = (wellEscaped (Cut q sep).1 && wellEscaped (Cut q sep).2) := by
  have h1s : ¬ ('%' = sep) := fun h => h1 h.symm
  induction q using wellEscaped.induct with
  | case1 => simp [Cut, wellEscaped]
  | case2 a b rest2 ih =>
    rw [Cut_cons, if_neg h1s, Cut_cons]
    by_cases ha : a = sep
    · subst ha
      simp [wellEscaped_percent, wellEscaped_percent_nil, h2]
    · rw [if_neg ha, Cut_cons]
      by_cases hb : b = sep
      · subst hb
        simp [wellEscaped_percent, wellEscaped_percent_one, h2]
      · rw [if_neg hb]
        simp only [wellEscaped_percent, ih, Bool.and_assoc]
  | case3 rest h =>
    rw [Cut_cons, if_neg h1s]
    match rest, h with
    | [], _ => simp [Cut, wellEscaped_percent_nil]
    | [a], _ =>
      rw [Cut_cons]
      by_cases ha : a = sep
      · simp [ha, wellEscaped_percent_one, wellEscaped_percent_nil]
      · simp [ha, Cut, wellEscaped_percent_one]
    | a :: b :: r, h => exact absurd rfl (fun e => h a b r e)
  | case4 c rest hc ih =>
    rw [Cut_cons]
    by_cases hs : c = sep
    · simp [hs, wellEscaped_other _ _ h1, wellEscaped]
    · simp only [if_neg hs, wellEscaped_other _ _ hc, ih]

theorem unescapeScan_percent (a b : Char) (r : Str) (n : Nat) (hp : Bool) :
    unescapeScan ('%' :: a :: b :: r) n hp =
      if !ishex a || !ishex b then .error (.escape ['%', a, b])
      else unescapeScan r (n + 1) hp := by
  conv_lhs => unfold unescapeScan
  simp

theorem unescapeScan_ok (s : Str) (h : wellEscaped s = true) (n : Nat) (hp : Bool) :
    ∃ v, unescapeScan s n hp = .ok v := by
  induction s using wellEscaped.induct generalizing n hp with
  | case1 => exact ⟨_, rfl⟩
  | case2 a b rest2 ih =>
    rw [wellEscaped_percent] at h
    simp only [Bool.and_eq_true] at h
    rw [unescapeScan_percent]
    simp only [h.1.1, h.1.2, Bool.not_true, Bool.or_self, Bool.false_eq_true, if_false]
    exact ih h.2 _ _
  | case3 rest hr =>
    exfalso
    match rest, hr with
    | [], _ => simp [wellEscaped_percent_nil] at h
    | [a], _ => simp [wellEscaped_percent_one] at h
    | a :: b :: r, hr => exact hr a b r rfl
  | case4 c rest hc ih =>
    rw [wellEscaped_other _ _ hc] at h
    unfold unescapeScan
    simp only [if_neg hc]
    split_ifs
    · exact ih h _ _
    · exact ih h _ _

theorem unescapeScan_error (s : Str) (h : wellEscaped s = false) (n : Nat) (hp : Bool) :
    ∃ e, unescapeScan s n hp = .error e := by
  induction s using wellEscaped.induct generalizing n hp with
  | case1 => simp [wellEscaped] at h
  | case2 a b rest2 ih =>
    rw [wellEscaped_percent] at h
    rw [unescapeScan_percent]
    split_ifs with hh
    · exact ⟨_, rfl⟩
    · simp only [Bool.or_eq_true, Bool.not_eq_true', not_or, Bool.not_eq_false] at hh
      simp only [hh.1, hh.2, Bool.and_self, Bool.true_and] at h
      exact ih h _ _
  | case3 rest hr =>
    match rest, hr with
    | [], _ => exact ⟨.escape ['%'], by simp [unescapeScan]⟩
    | [a], _ => exact ⟨.escape ['%', a], by simp [unescapeScan]⟩
    | a :: b :: r, hr => exact absurd rfl (fun e => hr a b r e)
  | case4 c rest hc ih =>
    rw [wellEscaped_other _ _ hc] at h
    unfold unescapeScan
    simp only [if_neg hc]
    split_ifs
    · exact ih h _ _
    · exact ih h _ _

theorem QueryUnescape_ok (s : Str) (h : wellEscaped s = true) :
    ∃ t, QueryUnescape s = .ok t := by
  obtain ⟨v, hv⟩ := unescapeScan_ok s h 0 false
  unfold QueryUnescape
  rw [hv]
  simp only
  split_ifs
  · exact ⟨_, rfl⟩
  · exact ⟨_, rfl⟩

theorem QueryUnescape_error (s : Str) (h : wellEscaped s = false) :
    ∃ e, QueryUnescape s = .error e := by
  obtain ⟨e, he⟩ := unescapeScan_error s h 0 false
  unfold QueryUnescape
  rw [he]
  exact ⟨_, rfl⟩

theorem parseQueryLoop_succ (fuel : Nat) (m : Values) (err : Option GoError) (query : Str) :
    parseQueryLoop (fuel + 1) m err query =
      if query = [] then (m, err)
      else if ';' ∈ (Cut query '&').1 then
        parseQueryLoop fuel m (some .invalidSemicolon) (Cut query '&').2
      else if (Cut query '&').1 = [] then parseQueryLoop fuel m err (Cut query '&').2
      else
        match QueryUnescape (Cut (Cut query '&').1 '=').1 with
        | .error err1 =>
          parseQueryLoop fuel m (if err = none then some err1 else err) (Cut query '&').2
        | .ok key =>
          match QueryUnescape (Cut (Cut query '&').1 '=').2 with
          | .error err1 =>
            parseQueryLoop fuel m (if err = none then some err1 else err) (Cut query '&').2
          | .ok value => parseQueryLoop fuel (m.add key [value]) err (Cut query '&').2 := by
  rw [parseQueryLoop]

theorem parseQueryLoop_err_sticky (fuel : Nat) (m : Values) (err : Option GoError) (q : Str)
    (h : err ≠ none) : (parseQueryLoop fuel m err q).2 ≠ none := by
  induction fuel generalizing m err q with
  | zero => simpa [parseQueryLoop] using h
  | succ fuel ih =>
    rw [parseQueryLoop_succ]
    split_ifs
    · exact h
    · exact ih _ _ _ (by simp)
    · exact ih _ _ _ h
    · split
      · exact ih _ _ _ (by simp [h])
      · split
        · exact ih _ _ _ (by simp [h])
        · exact ih _ _ _ h

/-- The loop of `parseQuery`, started without an error and with enough fuel,
ends without an error exactly on the valid texts. -/
theorem parseQueryLoop_none_iff (fuel : Nat) (m : Values) (q : Str) (hf : q.length ≤ fuel) :
    (parseQueryLoop fuel m none q).2 = none ↔ validQuery q := by
  induction fuel generalizing m q with
  | zero =>
    have : q = [] := List.length_eq_zero.mp (Nat.le_zero.mp hf)
    subst this
    simp [parseQueryLoop, validQuery, wellEscaped]
  | succ fuel ih =>
    rw [parseQueryLoop_succ]
    by_cases hq : q = []
    · subst hq
      simp [validQuery, wellEscaped]
    rw [if_neg hq]
    have hlen : (Cut q '&').2.length ≤ fuel := by
      have := Cut_snd_length '&' q
      have : 0 < q.length := List.length_pos.mpr hq
      omega
    have hW := wellEscaped_Cut '&' (by decide) (by decide) q
    have hM := mem_Cut ';' '&' (by decide) q
    have hrest := fun m => ih m (Cut q '&').2 hlen
    unfold validQuery at hrest ⊢
    by_cases hsemi : ';' ∈ (Cut q '&').1
    · rw [if_pos hsemi]
      constructor
      · intro h
        exact absurd h (parseQueryLoop_err_sticky _ _ _ _ (by simp))
      · intro h
        exact absurd (hM.mpr (Or.inl hsemi)) h.2
    rw [if_neg hsemi]
    by_cases hkey : (Cut q '&').1 = []
    · rw [if_pos hkey, hrest, hW, hM, hkey]
      simp [wellEscaped]
    rw [if_neg hkey]
    have hW2 := wellEscaped_Cut '=' (by decide) (by decide) (Cut q '&').1
    cases hk : wellEscaped (Cut (Cut q '&').1 '=').1 with
    | false =>
      obtain ⟨e, he⟩ := QueryUnescape_error _ hk
      rw [he]
      simp only
      constructor
      · intro h
        exact absurd h (parseQueryLoop_err_sticky _ _ _ _ (by simp))
      · intro h
        rw [hW, hW2, hk] at h
        simp at h
    | true =>
      obtain ⟨k, hkok⟩ := QueryUnescape_ok _ hk
      rw [hkok]
      simp only
      cases hv : wellEscaped (Cut (Cut q '&').1 '=').2 with
      | false =>
        obtain ⟨e, he⟩ := QueryUnescape_error _ hv
        rw [he]
        simp only
        constructor
        · intro h
          exact absurd h (parseQueryLoop_err_sticky _ _ _ _ (by simp))
        · intro h
          rw [hW, hW2, hv] at h
          simp at h
      | true =>
        obtain ⟨v, hvok⟩ := QueryUnescape_ok _ hv
        rw [hvok]
        simp only
        rw [hrest, hW, hW2, hk, hv, hM]
        simp [hsemi]

/-- `url.ParseQuery` returns no error exactly on the valid texts whose number
of parameters is within the limit. -/
theorem ParseQuery_none_iff (q : Str) :
    (ParseQuery q).2 = none ↔ (withinMaxParams q ∧ validQuery q) := by
  unfold ParseQuery parseQuery withinMaxParams urlParamsWithinMax
  by_cases h : q.count '&' + 1 ≤ defaultMaxParams
  · simp only [h, decide_True, Bool.not_true, Bool.false_eq_true, if_false, true_and]
    exact parseQueryLoop_none_iff q.length [] q (Nat.le_refl _)
  · simp [h]

/-- More fuel than the length of the query does not change the result of the
loop of `parseQuery`: the loop ends because the query is used up. -/
theorem parseQueryLoop_fuel (fuel : Nat) (m : Values) (err : Option GoError) (q : Str)
    (hf : q.length ≤ fuel) :
    parseQueryLoop fuel m err q = parseQueryLoop q.length m err q := by
  suffices H : ∀ (f1 f2 : Nat) (m : Values) (err : Option GoError) (q : Str),
      q.length ≤ f1 → q.length ≤ f2 → parseQueryLoop f1 m err q = parseQueryLoop f2 m err q from
    H _ _ _ _ _ hf (Nat.le_refl _)
  intro f1
  induction f1 with
  | zero =>
    intro f2 m err q h1 _
    have : q = [] := List.length_eq_zero.mp (Nat.le_zero.mp h1)
    subst this
    cases f2 <;> simp [parseQueryLoop]
  | succ f1 ih =>
    intro f2 m err q h1 h2
    cases f2 with
    | zero =>
      have : q = [] := List.length_eq_zero.mp (Nat.le_zero.mp h2)
      subst this
      simp [parseQueryLoop]
    | succ f2 =>
      rw [parseQueryLoop_succ, parseQueryLoop_succ]
      by_cases hq : q = []
      · simp [hq]
      have hpos : 0 < q.length := List.length_pos.mpr hq
      have hc := Cut_snd_length '&' q
      have e : ∀ m err, parseQueryLoop f1 m err (Cut q '&').2
          = parseQueryLoop f2 m err (Cut q '&').2 :=
        fun m err => ih f2 m err _ (by omega) (by omega)
      simp only [e]

/-! ## The greeting handler -/

theorem Error_code (msg : Str) (code : Nat) :
    (Error ResponseWriter.fresh msg code).code = code := rfl

theorem Error_body (msg : Str) (code : Nat) :
    (Error ResponseWriter.fresh msg code).body = msg ++ ['\n'] := rfl

theorem Fprintf_code (format : Str) (args : List Str) :
    (Fprintf ResponseWriter.fresh format args).code = 200 := rfl

theorem Fprintf_body (format : Str) (args : List Str) :
    (Fprintf ResponseWriter.fresh format args).body = Sprintf format args := rfl

/-- C1: a request to `helloHandler` with path `/hello` and method `GET` gets
status 200 and the body `Hello World`, whatever the rest of the request is. -/
theorem helloHandler_get_ok (r : Request) (hp : r.URL.Path = "/hello".toList)
    (hm : r.Method = "GET".toList) :
    (helloHandler ResponseWriter.fresh r).code = 200 ∧
      (helloHandler ResponseWriter.fresh r).body = "Hello World".toList := by
  simp only [helloHandler, hp, hm, ne_eq, not_true_eq_false, if_false]
  exact ⟨rfl, by decide⟩

theorem helloHandler_get_ok_witness :
    (helloHandler ResponseWriter.fresh
        (NewRequest "GET" "/hello" "a=%zz" "text/plain" "any body")).code = 200 ∧
      (helloHandler ResponseWriter.fresh
        (NewRequest "GET" "/hello" "a=%zz" "text/plain" "any body")).body
        = "Hello World".toList :=
  helloHandler_get_ok (NewRequest "GET" "/hello" "a=%zz" "text/plain" "any body")
    (by decide) (by decide)

/-- C5: a request to `helloHandler` with path `/hello` and any method other
than the exact string `GET` gets status 405. -/
theorem helloHandler_method_not_allowed (r : Request) (hp : r.URL.Path = "/hello".toList)
    (hm : r.Method ≠ "GET".toList) :
    (helloHandler ResponseWriter.fresh r).code = 405 := by
  simp only [helloHandler, hp, hm, ne_eq, not_true_eq_false, not_false_eq_true, if_false,
    if_true]
  rfl

theorem helloHandler_method_not_allowed_witness :
    (helloHandler ResponseWriter.fresh (NewRequest "get" "/hello" "" "" "")).code = 405 :=
  helloHandler_method_not_allowed (NewRequest "get" "/hello" "" "" "") (by decide) (by decide)

/-- C6: a request given to `helloHandler` with a path other than `/hello`
gets status 404 whatever its method is; the path test comes first, so the
status is neither 405 nor 200. -/
theorem helloHandler_not_found (r : Request) (hp : r.URL.Path ≠ "/hello".toList) :
    (helloHandler ResponseWriter.fresh r).code = 404 ∧
      (helloHandler ResponseWriter.fresh r).code ≠ 405 ∧
      (helloHandler ResponseWriter.fresh r).code ≠ 200 := by
  have h : helloHandler ResponseWriter.fresh r
      = Error ResponseWriter.fresh "404 not found".toList StatusNotFound := by
    simp only [helloHandler, hp, ne_eq, not_false_eq_true, if_true]
  rw [h, Error_code]
  decide

theorem helloHandler_not_found_witness :
    (helloHandler ResponseWriter.fresh (NewRequest "GET" "/hello/" "" "" "")).code = 404 ∧
      (helloHandler ResponseWriter.fresh (NewRequest "GET" "/hello/" "" "" "")).code ≠ 405 ∧
      (helloHandler ResponseWriter.fresh (NewRequest "GET" "/hello/" "" "" "")).code ≠ 200 :=
  helloHandler_not_found (NewRequest "GET" "/hello/" "" "" "") (by decide)

/-- The status of `formHandler` is 200 or 405. -/
theorem formHandler_code (lib : Lib) (r : Request) :
    (formHandler lib ResponseWriter.fresh r).code = 200 ∨
      (formHandler lib ResponseWriter.fresh r
          = Error ResponseWriter.fresh "method is not accepted".toList StatusMethodNotAllowed) := by
  unfold formHandler
  split
  · exact Or.inl rfl
  · split
    · exact Or.inr rfl
    · exact Or.inl rfl

/-- C7, as the code has it: the body of a rejection response is the stated
text followed by one newline byte (`http.Error` writes it with
`fmt.Fprintln`): `404 not found` plus newline for the 404 of `helloHandler`,
`method is not accepted` plus newline for the 405 of either handler. -/
theorem rejection_body_has_newline (lib : Lib) (r : Request) :
    ((helloHandler ResponseWriter.fresh r).code = 404 →
        (helloHandler ResponseWriter.fresh r).body = "404 not found\n".toList) ∧
      ((helloHandler ResponseWriter.fresh r).code = 405 →
        (helloHandler ResponseWriter.fresh r).body = "method is not accepted\n".toList) ∧
      ((formHandler lib ResponseWriter.fresh r).code = 405 →
        (formHandler lib ResponseWriter.fresh r).body = "method is not accepted\n".toList) := by
  refine ⟨?_, ?_, ?_⟩
  · unfold helloHandler
    split
    · intro _; rw [Error_body]; decide
    · split
      · rw [Error_code]; intro h; exact absurd h (by decide)
      · rw [Fprintf_code]; intro h; exact absurd h (by decide)
  · unfold helloHandler
    split
    · rw [Error_code]; intro h; exact absurd h (by decide)
    · split
      · intro _; rw [Error_body]; decide
      · rw [Fprintf_code]; intro h; exact absurd h (by decide)
  · rcases formHandler_code lib r with h | h
    · intro h2; rw [h] at h2; exact absurd h2 (by decide)
    · intro _; rw [h, Error_body]; decide

/-- The three rejection responses occur, each at a concrete request, and
have the stated body. -/
theorem rejection_body_has_newline_witness :
    (helloHandler ResponseWriter.fresh (NewRequest "GET" "/nope" "" "" "")).code = 404 ∧
      (helloHandler ResponseWriter.fresh (NewRequest "POST" "/hello" "" "" "")).code = 405 ∧
      (formHandler sampleLib ResponseWriter.fresh
        (NewRequest "GET" "/form" "" "" "")).code = 405 ∧
      (helloHandler ResponseWriter.fresh (NewRequest "GET" "/nope" "" "" "")).body
        = "404 not found\n".toList ∧
      (helloHandler ResponseWriter.fresh (NewRequest "POST" "/hello" "" "" "")).body
        = "method is not accepted\n".toList ∧
      (formHandler sampleLib ResponseWriter.fresh
        (NewRequest "GET" "/form" "" "" "")).body = "method is not accepted\n".toList :=
  ⟨by decide, by decide, by decide,
    (rejection_body_has_newline sampleLib
      (NewRequest "GET" "/nope" "" "" "")).1 (by decide),
    (rejection_body_has_newline sampleLib
      (NewRequest "POST" "/hello" "" "" "")).2.1 (by decide),
    (rejection_body_has_newline sampleLib
      (NewRequest "GET" "/form" "" "" "")).2.2 (by decide)⟩

/-- C7 as stated fails: the 404 response of `helloHandler` for the path
`/nope` has the body `404 not found` plus a newline, one byte more than the
stated text, and the 405 response for `POST /hello` likewise. -/
theorem rejection_body_not_exact :
    (helloHandler ResponseWriter.fresh (NewRequest "GET" "/nope" "" "" "")).code = 404 ∧
      (helloHandler ResponseWriter.fresh (NewRequest "GET" "/nope" "" "" "")).body
        ≠ "404 not found".toList ∧
      (helloHandler ResponseWriter.fresh (NewRequest "POST" "/hello" "" "" "")).code = 405 ∧
      (helloHandler ResponseWriter.fresh (NewRequest "POST" "/hello" "" "" "")).body
        ≠ "method is not accepted".toList := by
  decide

/-! ## The form handler -/

theorem ParseForm_Method (lib : Lib) (r : Request) : (ParseForm lib r).1.Method = r.Method := by
  unfold ParseForm
  split <;> rfl

theorem Sprintf_parse_error (msg : Str) :
    Sprintf "ParseForm() err: %v".toList [msg] = "ParseForm() err: ".toList ++ msg := by
  simp [Sprintf]

theorem formHandler_of_error (lib : Lib) (r : Request) (e : GoError)
    (h : (ParseForm lib r).2 = some e) :
    formHandler lib ResponseWriter.fresh r
      = Fprintf ResponseWriter.fresh "ParseForm() err: %v".toList [e.Error lib.Quote] := by
  unfold formHandler
  rw [h]

theorem formHandler_of_ok (lib : Lib) (r : Request) (h : (ParseForm lib r).2 = none) :
    formHandler lib ResponseWriter.fresh r
      = if r.Method ≠ "POST".toList then
          Error ResponseWriter.fresh "method is not accepted".toList StatusMethodNotAllowed
        else Fprintf ResponseWriter.fresh "POST Request success".toList [] := by
  unfold formHandler
  rw [h, ParseForm_Method]

theorem readFormBody_small (mb : Bool) (data : Str) (rerr : Option GoError)
    (hsize : mb = true ∨ data.length ≤ maxFormSize) :
    readFormBody mb data rerr = (data, rerr) := by
  unfold readFormBody
  rcases hsize with h | h
  · rw [if_pos h]
  · split_ifs
    · rfl
    · unfold readAllLimited
      rw [if_neg (by omega)]

theorem readFormBody_large (data : Str) (rerr : Option GoError)
    (hsize : maxFormSize < data.length) :
    readFormBody false data rerr = (data.take (maxFormSize + 1), none) := by
  unfold readFormBody readAllLimited
  simp only [Bool.false_eq_true, if_false]
  rw [if_pos (by omega)]

theorem parsePostFormUrlencoded_ok (mb : Bool) (data : Str)
    (hsize : mb = true ∨ data.length ≤ maxFormSize) (hw : withinMaxParams data)
    (hv : validQuery data) :
    (parsePostFormUrlencoded none mb data none).2 = none := by
  unfold parsePostFormUrlencoded
  rw [readFormBody_small mb data none hsize]
  have hlen : ¬ ((!mb && decide (maxFormSize < data.length)) = true) := by
    rcases hsize with h | h
    · simp [h]
    · simp only [Bool.and_eq_true, Bool.not_eq_true', decide_eq_true_eq, not_and]
      intro _
      omega
  simp only [if_neg hlen, if_true]
  exact (ParseQuery_none_iff data).mpr ⟨hw, hv⟩

theorem parsePostFormUrlencoded_malformed (err : Option GoError) (mb : Bool)
    (data : Str) (rerr : Option GoError) (hv : ¬ (withinMaxParams data ∧ validQuery data)) :
    (parsePostFormUrlencoded err mb data rerr).2 ≠ none := by
  have hparse : (ParseQuery data).2 ≠ none :=
    fun h => hv ((ParseQuery_none_iff data).mp h)
  unfold parsePostFormUrlencoded
  by_cases hsize : mb = true ∨ data.length ≤ maxFormSize
  · rw [readFormBody_small mb data rerr hsize]
    cases rerr with
    | some e =>
      simp only
      split_ifs with h
      · simp
      · exact h
    | none =>
      simp only
      split_ifs with h1 h2
      · simp
      · exact hparse
      · exact h2
  · simp only [not_or, Bool.not_eq_true] at hsize
    obtain ⟨hmb, hl⟩ := hsize
    subst hmb
    rw [readFormBody_large data rerr (by omega)]
    have hl2 : maxFormSize < data.length := by omega
    simp [hl2]

theorem parsePostForm_ok (lib : Lib) (r : Request) (mb : Bool) (data : Str)
    (hb : r.Body = .reader mb data none)
    (hsize : mb = true ∨ data.length ≤ maxFormSize)
    (hw : withinMaxParams data)
    (hv : validQuery data)
    (hct : (lib.ParseMediaType (mediaTypeArg r)).2 = none) :
    (parsePostForm lib r).2 = none := by
  unfold parsePostForm
  rw [hb]
  simp only [hct]
  split_ifs
  · exact parsePostFormUrlencoded_ok mb data hsize hw hv
  · rfl

theorem parsePostForm_malformed (lib : Lib) (r : Request) (mb : Bool) (data : Str)
    (rerr : Option GoError)
    (hb : r.Body = .reader mb data rerr)
    (hct : (lib.ParseMediaType (mediaTypeArg r)).1 = "application/x-www-form-urlencoded".toList)
    (hv : ¬ (withinMaxParams data ∧ validQuery data)) :
    (parsePostForm lib r).2 ≠ none := by
  unfold parsePostForm
  rw [hb]
  simp only [hct, if_true]
  exact parsePostFormUrlencoded_malformed _ mb data rerr hv

/-- The first block of `ParseForm` returns no error for a method other than
`POST`, `PUT` and `PATCH`: it does not read the body. -/
theorem parseFormPost_no_body (lib : Lib) (r : Request)
    (hm : r.Method ≠ "POST".toList ∧ r.Method ≠ "PUT".toList ∧ r.Method ≠ "PATCH".toList) :
    (parseFormPost lib r).2 = none := by
  unfold parseFormPost
  split
  · rfl
  · simp only [hm.1, hm.2.1, hm.2.2, decide_False, Bool.or_self, Bool.false_eq_true, if_false]

/-- The first block of `ParseForm` returns no error when the body is
readable, within the size limit and the limit on parameters, and valid, and
the `Content-Type` header parses. -/
theorem parseFormPost_ok (lib : Lib) (r : Request) (mb : Bool) (data : Str)
    (hb : r.Body = .reader mb data none)
    (hsize : mb = true ∨ data.length ≤ maxFormSize)
    (hw : withinMaxParams data)
    (hv : validQuery data)
    (hct : (lib.ParseMediaType (mediaTypeArg r)).2 = none) :
    (parseFormPost lib r).2 = none := by
  unfold parseFormPost
  split
  · rfl
  · split_ifs
    · exact parsePostForm_ok lib r mb data hb hsize hw hv hct
    · rfl

/-- The first block of `ParseForm` returns no error when the body is not
nil, the `Content-Type` header parses and, in case the media type is
`application/x-www-form-urlencoded` (the one case in which the body is read),
the body is readable, within the size limit and the limit on parameters, and
valid. -/
theorem parseFormPost_none (lib : Lib) (r : Request)
    (hnn : r.Body ≠ .nil)
    (hct : (lib.ParseMediaType (mediaTypeArg r)).2 = none)
    (hbody : (lib.ParseMediaType (mediaTypeArg r)).1
        = "application/x-www-form-urlencoded".toList →
      ∃ mb data, r.Body = .reader mb data none ∧ (mb = true ∨ data.length ≤ maxFormSize) ∧
        withinMaxParams data ∧ validQuery data) :
    (parseFormPost lib r).2 = none := by
  by_cases hu : (lib.ParseMediaType (mediaTypeArg r)).1
      = "application/x-www-form-urlencoded".toList
  · obtain ⟨mb, data, hb, hsize, hw, hv⟩ := hbody hu
    exact parseFormPost_ok lib r mb data hb hsize hw hv hct
  · unfold parseFormPost
    split
    · rfl
    · split
      · unfold parsePostForm
        cases hb : r.Body with
        | nil => exact absurd hb hnn
        | reader mb data rerr =>
          simp only [if_neg hu]
          exact hct
      · rfl

/-- `ParseForm` returns no error when its first block returns none and the
URL query is valid and within the limit on parameters. -/
theorem ParseForm_ok (lib : Lib) (r : Request)
    (hpost : (parseFormPost lib r).2 = none)
    (hqw : withinMaxParams r.URL.RawQuery)
    (hq : validQuery r.URL.RawQuery) :
    (ParseForm lib r).2 = none := by
  unfold ParseForm
  split
  · exact hpost
  · simp only [hpost, if_true]
    exact (ParseQuery_none_iff _).mpr ⟨hqw, hq⟩

/-- `ParseForm` returns an error when it parses a malformed URL query. -/
theorem ParseForm_bad_query (lib : Lib) (r : Request) (hf : r.Form = none)
    (hq : ¬ validQuery r.URL.RawQuery) : (ParseForm lib r).2 ≠ none := by
  unfold ParseForm
  rw [hf]
  simp only
  split_ifs with h
  · exact fun hnone => hq ((ParseQuery_none_iff _).mp hnone).2
  · exact h

/-- `ParseForm` returns an error when its first block does. -/
theorem ParseForm_of_post_error (lib : Lib) (r : Request)
    (hpost : (parseFormPost lib r).2 ≠ none) : (ParseForm lib r).2 ≠ none := by
  unfold ParseForm
  split
  · exact hpost
  · simp only [hpost, if_false]
    exact hpost

/-- `ParseForm` returns an error when it parses a malformed body. -/
theorem ParseForm_bad_body (lib : Lib) (r : Request) (mb : Bool) (data : Str)
    (rerr : Option GoError)
    (hm : r.Method = "POST".toList ∨ r.Method = "PUT".toList ∨ r.Method = "PATCH".toList)
    (hp : r.PostForm = none)
    (hb : r.Body = .reader mb data rerr)
    (hct : (lib.ParseMediaType (mediaTypeArg r)).1 = "application/x-www-form-urlencoded".toList)
    (hv : ¬ validQuery data) :
    (ParseForm lib r).2 ≠ none := by
  have hpost : (parseFormPost lib r).2 ≠ none := by
    unfold parseFormPost
    rw [hp]
    simp only
    rw [if_pos (by simp only [Bool.or_eq_true, decide_eq_true_eq]; tauto)]
    exact parsePostForm_malformed lib r mb data rerr hb hct (fun h => hv h.2)
  exact ParseForm_of_post_error lib r hpost

theorem parse_error_body_ne_success (msg : Str) :
    "ParseForm() err: ".toList ++ msg ≠ "POST Request success".toList := by
  intro h
  have h2 := congrArg (fun l => l.get? 1) h
  exact absurd h2 (by simp)

/-- The response of `formHandler` when `ParseForm` fails: status 200 and the
text `ParseForm() err: ` followed by the error message. -/
theorem formHandler_error_response (lib : Lib) (r : Request) (h : (ParseForm lib r).2 ≠ none) :
    (formHandler lib ResponseWriter.fresh r).code = 200 ∧
      ∃ msg, (formHandler lib ResponseWriter.fresh r).body = "ParseForm() err: ".toList ++ msg := by
  obtain ⟨e, he⟩ := Option.ne_none_iff_exists'.mp h
  rw [formHandler_of_error lib r e he, Fprintf_code, Fprintf_body, Sprintf_parse_error]
  exact ⟨rfl, _, rfl⟩

/-- C2, as the code has it: a `POST` request gets status 200 and the body
`POST Request success` when `ParseForm` has nothing to object to: the body is
not nil, the `Content-Type` header parses without error, the URL query string
has at most 10000 parameters and is valid URL-encoded data, and, in case the
media type is `application/x-www-form-urlencoded` (the one case in which
`ParseForm` reads the body), the body can be read to its end, is within the
form size limit (or comes from a `MaxBytesReader`), has at most 10000
parameters and is valid URL-encoded data. -/
theorem formHandler_post_ok (lib : Lib) (r : Request)
    (hm : r.Method = "POST".toList)
    (hnn : r.Body ≠ .nil)
    (hct : (lib.ParseMediaType (mediaTypeArg r)).2 = none)
    (hbody : (lib.ParseMediaType (mediaTypeArg r)).1
        = "application/x-www-form-urlencoded".toList →
      ∃ mb data, r.Body = .reader mb data none ∧ (mb = true ∨ data.length ≤ maxFormSize) ∧
        withinMaxParams data ∧ validQuery data)
    (hqw : withinMaxParams r.URL.RawQuery)
    (hq : validQuery r.URL.RawQuery) :
    (formHandler lib ResponseWriter.fresh r).code = 200 ∧
      (formHandler lib ResponseWriter.fresh r).body = "POST Request success".toList := by
  rw [formHandler_of_ok lib r
    (ParseForm_ok lib r (parseFormPost_none lib r hnn hct hbody) hqw hq)]
  simp only [hm, ne_eq, not_true_eq_false, if_false]
  exact ⟨rfl, by decide⟩

/-- A `POST` request with the URL-encoded body `a=1&b=2`, and one whose body
is of another media type and is not read, both with a valid query. -/
theorem formHandler_post_ok_witness :
    ((formHandler sampleLib ResponseWriter.fresh
        (NewRequest "POST" "/form" "x=1" "application/x-www-form-urlencoded" "a=1&b=2")).code
        = 200 ∧
      (formHandler sampleLib ResponseWriter.fresh
        (NewRequest "POST" "/form" "x=1" "application/x-www-form-urlencoded" "a=1&b=2")).body
        = "POST Request success".toList) ∧
    ((formHandler sampleLib ResponseWriter.fresh
        (NewRequest "POST" "/form" "" "application/json" "%zz")).code = 200 ∧
      (formHandler sampleLib ResponseWriter.fresh
        (NewRequest "POST" "/form" "" "application/json" "%zz")).body
        = "POST Request success".toList) :=
  ⟨formHandler_post_ok sampleLib
      (NewRequest "POST" "/form" "x=1" "application/x-www-form-urlencoded" "a=1&b=2")
      (by decide) (by decide) rfl
      (fun _ => ⟨false, "a=1&b=2".toList, rfl, Or.inr (by decide), by decide, by decide⟩)
      (by decide) (by decide),
    formHandler_post_ok sampleLib (NewRequest "POST" "/form" "" "application/json" "%zz")
      (by decide) (by decide) rfl (fun h => absurd h (by decide)) (by decide) (by decide)⟩

/-- C2 as stated fails: the `POST` request with the valid body `a=1` and the
URL query `%zz` gets the text `ParseForm() err: ...` as its body, not
`POST Request success`, whatever `mime.ParseMediaType` and `strconv.Quote`
return. -/
theorem formHandler_post_bad_query :
    (NewRequest "POST" "/form" "%zz" "application/x-www-form-urlencoded" "a=1").Method
        = "POST".toList ∧
      (NewRequest "POST" "/form" "%zz" "application/x-www-form-urlencoded" "a=1").Body
        = .reader false "a=1".toList none ∧
      validQuery "a=1".toList ∧
      ∀ lib : Lib,
        (formHandler lib ResponseWriter.fresh
          (NewRequest "POST" "/form" "%zz" "application/x-www-form-urlencoded" "a=1")).body
          ≠ "POST Request success".toList := by
  refine ⟨by decide, rfl, by decide, fun lib => ?_⟩
  obtain ⟨_, msg, hmsg⟩ := formHandler_error_response lib
    (NewRequest "POST" "/form" "%zz" "application/x-www-form-urlencoded" "a=1")
    (ParseForm_bad_query lib _ rfl (by decide))
  rw [hmsg]
  exact parse_error_body_ne_success msg

theorem parsePostFormUrlencoded_err_sticky (err : Option GoError) (mb : Bool) (data : Str)
    (rerr : Option GoError) (h : err ≠ none) :
    (parsePostFormUrlencoded err mb data rerr).2 ≠ none := by
  unfold parsePostFormUrlencoded
  split
  · simp only [if_neg h]
    exact h
  · split
    · simp
    · simp only [if_neg h]
      exact h

/-- The first block of `ParseForm` for a request whose body it reads. -/
theorem parseFormPost_reads_body (lib : Lib) (r : Request)
    (hm : r.Method = "POST".toList ∨ r.Method = "PUT".toList ∨ r.Method = "PATCH".toList)
    (hp : r.PostForm = none) :
    (parseFormPost lib r).2 = (parsePostForm lib r).2 := by
  unfold parseFormPost
  rw [hp]
  simp only
  rw [if_pos (by simp only [Bool.or_eq_true, decide_eq_true_eq]; tauto)]

/-- What the response of `formHandler` is when `ParseForm` fails: status 200
and a body other than `POST Request success`. -/
theorem formHandler_error_not_success (lib : Lib) (r : Request)
    (h : (ParseForm lib r).2 ≠ none) :
    (formHandler lib ResponseWriter.fresh r).code = 200 ∧
      (formHandler lib ResponseWriter.fresh r).body ≠ "POST Request success".toList := by
  obtain ⟨hc, msg, hmsg⟩ := formHandler_error_response lib r h
  refine ⟨hc, ?_⟩
  rw [hmsg]
  exact parse_error_body_ne_success msg

/-- The conditions on the `Content-Type` header are needed: a `POST`, `PUT`
or `PATCH` request whose `Content-Type` header does not parse gets status 200
and the `ParseForm() err: ` text, whatever its body is. -/
theorem formHandler_bad_content_type (lib : Lib) (r : Request) (mb : Bool) (data : Str)
    (rerr : Option GoError)
    (hm : r.Method = "POST".toList ∨ r.Method = "PUT".toList ∨ r.Method = "PATCH".toList)
    (hp : r.PostForm = none)
    (hb : r.Body = .reader mb data rerr)
    (hct : (lib.ParseMediaType (mediaTypeArg r)).2 ≠ none) :
    (formHandler lib ResponseWriter.fresh r).code = 200 ∧
      (formHandler lib ResponseWriter.fresh r).body ≠ "POST Request success".toList := by
  apply formHandler_error_not_success
  apply ParseForm_of_post_error
  rw [parseFormPost_reads_body lib r hm hp]
  unfold parsePostForm
  rw [hb]
  simp only
  split
  · exact parsePostFormUrlencoded_err_sticky _ _ _ _ hct
  · exact hct

/-- The condition on the body size is needed: a `POST`, `PUT` or `PATCH`
request with the urlencoded content type whose body, valid or not, is longer
than the form size limit of 10 MiB (and does not come from a
`MaxBytesReader`) gets status 200 and the `ParseForm() err: ` text. -/
theorem formHandler_body_too_large (lib : Lib) (r : Request) (data : Str)
    (rerr : Option GoError)
    (hm : r.Method = "POST".toList ∨ r.Method = "PUT".toList ∨ r.Method = "PATCH".toList)
    (hp : r.PostForm = none)
    (hb : r.Body = .reader false data rerr)
    (hct : (lib.ParseMediaType (mediaTypeArg r)).1 = "application/x-www-form-urlencoded".toList)
    (hlen : maxFormSize < data.length) :
    (formHandler lib ResponseWriter.fresh r).code = 200 ∧
      (formHandler lib ResponseWriter.fresh r).body ≠ "POST Request success".toList := by
  apply formHandler_error_not_success
  apply ParseForm_of_post_error
  rw [parseFormPost_reads_body lib r hm hp]
  unfold parsePostForm
  rw [hb]
  simp only [hct, if_true]
  unfold parsePostFormUrlencoded
  rw [readFormBody_large _ _ hlen]
  have h2 : maxFormSize < (List.take (maxFormSize + 1) data).length := by
    rw [List.length_take]
    omega
  simp only [Bool.not_false, Bool.true_and, decide_eq_true_eq, if_pos h2]
  simp

/-- The condition on the number of parameters of the body is needed: a
`POST`, `PUT` or `PATCH` request with the urlencoded content type whose body
has more than 10000 parameters (10000 `&` or more) gets status 200 and the
`ParseForm() err: ` text, also when the body is valid. -/
theorem formHandler_body_too_many_params (lib : Lib) (r : Request) (mb : Bool) (data : Str)
    (rerr : Option GoError)
    (hm : r.Method = "POST".toList ∨ r.Method = "PUT".toList ∨ r.Method = "PATCH".toList)
    (hp : r.PostForm = none)
    (hb : r.Body = .reader mb data rerr)
    (hct : (lib.ParseMediaType (mediaTypeArg r)).1 = "application/x-www-form-urlencoded".toList)
    (hw : ¬ withinMaxParams data) :
    (formHandler lib ResponseWriter.fresh r).code = 200 ∧
      (formHandler lib ResponseWriter.fresh r).body ≠ "POST Request success".toList := by
  apply formHandler_error_not_success
  apply ParseForm_of_post_error
  rw [parseFormPost_reads_body lib r hm hp]
  exact parsePostForm_malformed lib r mb data rerr hb hct (fun h => hw h.1)

/-- The condition on the number of parameters of the URL query is needed: a
request of any method whose query string has more than 10000 parameters gets
status 200 and the `ParseForm() err: ` text, also when the query is valid. -/
theorem formHandler_query_too_many_params (lib : Lib) (r : Request) (hf : r.Form = none)
    (hw : ¬ withinMaxParams r.URL.RawQuery) :
    (formHandler lib ResponseWriter.fresh r).code = 200 ∧
      (formHandler lib ResponseWriter.fresh r).body ≠ "POST Request success".toList := by
  apply formHandler_error_not_success
  unfold ParseForm
  rw [hf]
  simp only
  split_ifs with h
  · exact fun hnone => hw ((ParseQuery_none_iff _).mp hnone).1
  · exact h

/-- A text of 10000 `&` is valid URL-encoded data with more parameters than
the limit allows. -/
theorem ampersands_valid_over_limit :
    validQuery (List.replicate 10000 '&') ∧ ¬ withinMaxParams (List.replicate 10000 '&') := by
  have hwell : ∀ n : Nat, wellEscaped (List.replicate n '&') = true := by
    intro n
    induction n with
    | zero => rfl
    | succ n ih =>
      rw [List.replicate_succ, wellEscaped_other _ _ (by decide)]
      exact ih
  refine ⟨⟨hwell _, ?_⟩, ?_⟩
  · intro hmem
    exact absurd (List.eq_of_mem_replicate hmem) (by decide)
  · unfold withinMaxParams defaultMaxParams
    rw [List.count_replicate_self]
    omega

/-- C3, as the code has it: a request whose method is not `POST` and whose
URL query string is valid URL-encoded data with at most 10000 parameters gets
status 405.  For every method but `PUT` and `PATCH` nothing is asked of the
body and the headers, which `ParseForm` does not read; for `PUT` and `PATCH`
the body is not nil, the `Content-Type` header parses without error and, in
case the media type is `application/x-www-form-urlencoded`, the body is
readable, within the form size limit, valid and of at most 10000
parameters. -/
theorem formHandler_method_not_allowed (lib : Lib) (r : Request)
    (hm : r.Method ≠ "POST".toList)
    (hbody : (r.Method = "PUT".toList ∨ r.Method = "PATCH".toList) →
      r.Body ≠ .nil ∧ (lib.ParseMediaType (mediaTypeArg r)).2 = none ∧
        ((lib.ParseMediaType (mediaTypeArg r)).1 = "application/x-www-form-urlencoded".toList →
          ∃ mb data, r.Body = .reader mb data none ∧
            (mb = true ∨ data.length ≤ maxFormSize) ∧ withinMaxParams data ∧ validQuery data))
    (hqw : withinMaxParams r.URL.RawQuery)
    (hq : validQuery r.URL.RawQuery) :
    (formHandler lib ResponseWriter.fresh r).code = 405 := by
  have hpost : (parseFormPost lib r).2 = none := by
    by_cases hpp : r.Method = "PUT".toList ∨ r.Method = "PATCH".toList
    · obtain ⟨hnn, hct, hb⟩ := hbody hpp
      exact parseFormPost_none lib r hnn hct hb
    · exact parseFormPost_no_body lib r
        ⟨hm, fun h => hpp (Or.inl h), fun h => hpp (Or.inr h)⟩
  rw [formHandler_of_ok lib r (ParseForm_ok lib r hpost hqw hq)]
  simp only [hm, ne_eq, not_false_eq_true, if_true]
  rfl

/-- A `GET` request without a body and a `PUT` request with a valid
URL-encoded body, both with a valid query, get 405. -/
theorem formHandler_method_not_allowed_witness :
    (formHandler sampleLib ResponseWriter.fresh
        { NewRequest "GET" "/form" "x=1" "" "" with Body := .nil }).code = 405 ∧
      (formHandler sampleLib ResponseWriter.fresh
        (NewRequest "PUT" "/form" "x=1" "application/x-www-form-urlencoded" "a=1")).code = 405 :=
  ⟨formHandler_method_not_allowed sampleLib
      { NewRequest "GET" "/form" "x=1" "" "" with Body := .nil }
      (by decide) (fun h => absurd h (by decide)) (by decide) (by decide),
    formHandler_method_not_allowed sampleLib
      (NewRequest "PUT" "/form" "x=1" "application/x-www-form-urlencoded" "a=1")
      (by decide)
      (fun _ => ⟨by decide, rfl,
        fun _ => ⟨false, "a=1".toList, rfl, Or.inr (by decide), by decide, by decide⟩⟩)
      (by decide) (by decide)⟩

/-- C3 as stated fails: the `GET` request with an empty (valid) body and the
URL query `%zz` gets status 200, not 405: `ParseForm` parses the query string
of every request, before the method test. -/
theorem formHandler_get_bad_query :
    (NewRequest "GET" "/form" "%zz" "" "").Method ≠ "POST".toList ∧
      (NewRequest "GET" "/form" "%zz" "" "").Body = .reader false [] none ∧
      validQuery [] ∧
      ∀ lib : Lib,
        (formHandler lib ResponseWriter.fresh (NewRequest "GET" "/form" "%zz" "" "")).code = 200 :=
  ⟨by decide, rfl, by decide, fun lib =>
    (formHandler_error_response lib (NewRequest "GET" "/form" "%zz" "" "")
      (ParseForm_bad_query lib _ rfl (by decide))).1⟩

/-- C4, as the code has it: a request whose method is `POST`, `PUT` or
`PATCH`, whose `PostForm` is not filled in yet, whose `Content-Type` is
`application/x-www-form-urlencoded` and whose body is malformed URL-encoded
data gets status 200 and a body that starts with `ParseForm() err: `; the
parse comes before the method test, so the status is not 405 (for `PUT` and
`PATCH` too). -/
theorem formHandler_malformed_body (lib : Lib) (r : Request) (mb : Bool) (data : Str)
    (rerr : Option GoError)
    (hm : r.Method = "POST".toList ∨ r.Method = "PUT".toList ∨ r.Method = "PATCH".toList)
    (hp : r.PostForm = none)
    (hb : r.Body = .reader mb data rerr)
    (hct : (lib.ParseMediaType (mediaTypeArg r)).1 = "application/x-www-form-urlencoded".toList)
    (hv : ¬ validQuery data) :
    (formHandler lib ResponseWriter.fresh r).code = 200 ∧
      "ParseForm() err: ".toList <+: (formHandler lib ResponseWriter.fresh r).body ∧
      (formHandler lib ResponseWriter.fresh r).code ≠ 405 := by
  obtain ⟨hc, msg, hmsg⟩ := formHandler_error_response lib r
    (ParseForm_bad_body lib r mb data rerr hm hp hb hct hv)
  refine ⟨hc, ?_, ?_⟩
  · rw [hmsg]
    exact List.prefix_append _ _
  · rw [hc]
    decide

theorem formHandler_malformed_body_witness :
    (formHandler sampleLib ResponseWriter.fresh
        (NewRequest "PUT" "/form" "" "application/x-www-form-urlencoded" "a=%zz")).code = 200 ∧
      "ParseForm() err: ".toList <+:
        (formHandler sampleLib ResponseWriter.fresh
          (NewRequest "PUT" "/form" "" "application/x-www-form-urlencoded" "a=%zz")).body ∧
      (formHandler sampleLib ResponseWriter.fresh
        (NewRequest "PUT" "/form" "" "application/x-www-form-urlencoded" "a=%zz")).code ≠ 405 :=
  formHandler_malformed_body sampleLib
    (NewRequest "PUT" "/form" "" "application/x-www-form-urlencoded" "a=%zz")
    false "a=%zz".toList none (Or.inr (Or.inl (by decide))) rfl rfl rfl (by decide)

/-- C4 as stated fails: `ParseForm` reads the body only for `POST`, `PUT` and
`PATCH`, so the `GET` request with the malformed body `a=%zz` gets the
method-not-allowed response, status 405, and no `ParseForm() err:` text. -/
theorem formHandler_get_malformed_body :
    (NewRequest "GET" "/form" "" "application/x-www-form-urlencoded" "a=%zz").Body
        = .reader false "a=%zz".toList none ∧
      ¬ validQuery "a=%zz".toList ∧
      ∀ lib : Lib,
        (formHandler lib ResponseWriter.fresh
          (NewRequest "GET" "/form" "" "application/x-www-form-urlencoded" "a=%zz")).code = 405 ∧
        ¬ ("ParseForm() err:".toList <+:
          (formHandler lib ResponseWriter.fresh
            (NewRequest "GET" "/form" "" "application/x-www-form-urlencoded" "a=%zz")).body) := by
  refine ⟨rfl, by decide, fun lib => ?_⟩
  have h : formHandler lib ResponseWriter.fresh
      (NewRequest "GET" "/form" "" "application/x-www-form-urlencoded" "a=%zz")
      = Error ResponseWriter.fresh "method is not accepted".toList StatusMethodNotAllowed := rfl
  rw [h]
  exact ⟨rfl, by decide⟩

/-- C9: `formHandler` does not read the parsed form values: two requests with
the same method for which `ParseForm` succeeds get the same response, status
and body, whatever their fields are. -/
theorem formHandler_ignores_values (lib : Lib) (r1 r2 : Request)
    (hm : r1.Method = r2.Method)
    (h1 : (ParseForm lib r1).2 = none) (h2 : (ParseForm lib r2).2 = none) :
    (formHandler lib ResponseWriter.fresh r1).code = (formHandler lib ResponseWriter.fresh r2).code ∧
      (formHandler lib ResponseWriter.fresh r1).body
        = (formHandler lib ResponseWriter.fresh r2).body := by
  rw [formHandler_of_ok lib r1 h1, formHandler_of_ok lib r2 h2, hm]
  exact ⟨rfl, rfl⟩

/-- Two `POST` requests whose parsed forms differ get the same response. -/
theorem formHandler_ignores_values_witness :
    (ParseForm sampleLib
        (NewRequest "POST" "/form" "" "application/x-www-form-urlencoded" "a=1")).1.Form
      ≠ (ParseForm sampleLib
        (NewRequest "POST" "/form" "q=7" "application/x-www-form-urlencoded" "b=2&c=%41+x")).1.Form ∧
    (formHandler sampleLib ResponseWriter.fresh
        (NewRequest "POST" "/form" "" "application/x-www-form-urlencoded" "a=1")).code
      = (formHandler sampleLib ResponseWriter.fresh
        (NewRequest "POST" "/form" "q=7" "application/x-www-form-urlencoded" "b=2&c=%41+x")).code ∧
    (formHandler sampleLib ResponseWriter.fresh
        (NewRequest "POST" "/form" "" "application/x-www-form-urlencoded" "a=1")).body
      = (formHandler sampleLib ResponseWriter.fresh
        (NewRequest "POST" "/form" "q=7" "application/x-www-form-urlencoded" "b=2&c=%41+x")).body :=
  ⟨by decide,
    formHandler_ignores_values sampleLib
      (NewRequest "POST" "/form" "" "application/x-www-form-urlencoded" "a=1")
      (NewRequest "POST" "/form" "q=7" "application/x-www-form-urlencoded" "b=2&c=%41+x")
      rfl (by decide) (by decide)⟩

/-! ## The router -/

/-- `cleanPath` on sample paths. -/
theorem cleanPath_samples :
    cleanPath "/hello/".toList = "/hello/".toList ∧
      cleanPath "/hellox".toList = "/hellox".toList ∧
      cleanPath "/form/a".toList = "/form/a".toList ∧
      cleanPath "//hello".toList = "/hello".toList ∧
      cleanPath "/a/../../etc/passwd".toList = "/etc/passwd".toList ∧
      cleanPath "/a/./b/..".toList = "/a".toList ∧
      cleanPath "a/b/".toList = "/a/b/".toList ∧
      cleanPath [] = "/".toList := by
  decide

/-- `path.Clean` on paths of the test table of package `path`. -/
theorem Clean_samples :
    Clean "".toList = ".".toList ∧
      Clean "abc".toList = "abc".toList ∧
      Clean "abc/def".toList = "abc/def".toList ∧
      Clean "a/b/c".toList = "a/b/c".toList ∧
      Clean ".".toList = ".".toList ∧
      Clean "..".toList = "..".toList ∧
      Clean "../..".toList = "../..".toList ∧
      Clean "../../abc".toList = "../../abc".toList ∧
      Clean "/abc".toList = "/abc".toList ∧
      Clean "/".toList = "/".toList ∧
      Clean "abc/".toList = "abc".toList ∧
      Clean "abc/def/".toList = "abc/def".toList ∧
      Clean "a/b/c/".toList = "a/b/c".toList ∧
      Clean "./".toList = ".".toList ∧
      Clean "../".toList = "..".toList ∧
      Clean "../../".toList = "../..".toList ∧
      Clean "/abc/".toList = "/abc".toList ∧
      Clean "abc//def//ghi".toList = "abc/def/ghi".toList ∧
      Clean "//abc".toList = "/abc".toList ∧
      Clean "///abc".toList = "/abc".toList ∧
      Clean "//abc//".toList = "/abc".toList ∧
      Clean "abc//".toList = "abc".toList ∧
      Clean "abc/./def".toList = "abc/def".toList ∧
      Clean "/./abc/def".toList = "/abc/def".toList ∧
      Clean "abc/.".toList = "abc".toList ∧
      Clean "abc/def/ghi/../jkl".toList = "abc/def/jkl".toList ∧
      Clean "abc/def/../ghi/../jkl".toList = "abc/jkl".toList ∧
      Clean "abc/def/..".toList = "abc".toList ∧
      Clean "abc/def/../..".toList = ".".toList ∧
      Clean "/abc/def/../..".toList = "/".toList ∧
      Clean "abc/def/../../..".toList = "..".toList ∧
      Clean "/abc/def/../../..".toList = "/".toList ∧
      Clean "abc/def/../../../ghi/jkl/../../../mno".toList = "../../mno".toList ∧
      Clean "abc/./../def".toList = "def".toList ∧
      Clean "abc//./../def".toList = "def".toList ∧
      Clean "abc/../../././../def".toList = "../../def".toList := by
  decide

theorem backtrack_ge (buf : Str) (dotdot w : Nat) (h : dotdot ≤ w) :
    dotdot ≤ backtrack buf dotdot w := by
  induction w with
  | zero => simpa [backtrack] using h
  | succ w ih =>
    unfold backtrack
    split_ifs with hc
    · simp only [Bool.and_eq_true, decide_eq_true_eq] at hc
      exact ih (by omega)
    · exact h

theorem cleanLoop_succ (rooted : Bool) (fuel : Nat) (c : Char) (tl out : Str) (dotdot : Nat) :
    cleanLoop rooted (fuel + 1) (c :: tl) out dotdot =
      if c = '/' then cleanLoop rooted fuel tl out dotdot
      else if (c = '.' && (tl = [] || tl.head? = some '/')) = true then
        cleanLoop rooted fuel tl out dotdot
      else if (c = '.' && tl.head? = some '.' && (tl.tail = [] || tl.tail.head? = some '/'))
          = true then
        if dotdot < out.length then
          cleanLoop rooted fuel tl.tail (out.take (backtrack out dotdot (out.length - 1))) dotdot
        else if (!rooted) = true then
          cleanLoop rooted fuel tl.tail ((if 0 < out.length then out ++ ['/'] else out) ++ ['.', '.'])
            ((if 0 < out.length then out ++ ['/'] else out) ++ ['.', '.']).length
        else cleanLoop rooted fuel tl.tail out dotdot
      else
        cleanLoop rooted fuel ((c :: tl).dropWhile (fun x => x != '/'))
          ((if ((rooted && out.length != 1) || (!rooted && out.length != 0)) = true
              then out ++ ['/'] else out) ++ (c :: tl).takeWhile (fun x => x != '/')) dotdot := by
  rw [cleanLoop]

theorem head?_take_of_pos (out : Str) (k : Nat) (hk : 1 ≤ k) : (out.take k).head? = out.head? := by
  cases out with
  | nil => simp
  | cons a as =>
    cases k with
    | zero => omega
    | succ k => simp

theorem head?_append_of_head? (out ys : Str) (c : Char) (h : out.head? = some c) :
    (out ++ ys).head? = some c := by
  cases out with
  | nil => simp at h
  | cons a as => simpa using h

/-- The loop of `path.Clean` on a rooted path keeps the leading slash. -/
theorem cleanLoop_rooted_head (fuel : Nat) (rest out : Str) (h : out.head? = some '/') :
    (cleanLoop true fuel rest out 1).head? = some '/' := by
  induction fuel generalizing rest out with
  | zero => simpa [cleanLoop] using h
  | succ fuel ih =>
    cases rest with
    | nil => simpa [cleanLoop] using h
    | cons c tl =>
      rw [cleanLoop_succ]
      split
      · exact ih _ _ h
      split
      · exact ih _ _ h
      split
      · split
        · apply ih
          rw [head?_take_of_pos _ _ (backtrack_ge _ _ _ (by omega))]
          exact h
        · split
          · rename_i h5
            simp at h5
          · exact ih _ _ h
      · apply ih
        apply head?_append_of_head?
        split
        · exact head?_append_of_head? _ _ _ h
        · exact h

theorem Clean_rooted_head (tl : Str) : (Clean ('/' :: tl)).head? = some '/' := by
  unfold Clean
  simp only [if_true]
  have := cleanLoop_rooted_head ('/' :: tl).length tl ['/'] rfl
  split
  · rename_i h0
    rw [List.length_eq_zero.mp h0] at this
    simp at this
  · exact this

theorem cleanPath_eq (p : Str) :
    cleanPath p =
      if p = [] then ['/']
      else cleanPathRooted (if p.head? ≠ some '/' then '/' :: p else p) := rfl

theorem cleanPathRooted_head (tl : Str) : (cleanPathRooted ('/' :: tl)).head? = some '/' := by
  unfold cleanPathRooted
  split
  · split
    · rfl
    · exact head?_append_of_head? _ _ _ (Clean_rooted_head tl)
  · exact Clean_rooted_head tl

/-- The result of `cleanPath` starts with a slash. -/
theorem cleanPath_head (p : Str) : (cleanPath p).head? = some '/' := by
  rw [cleanPath_eq]
  split
  · rfl
  · rename_i h0
    split
    · exact cleanPathRooted_head p
    · rename_i hh
      cases p with
      | nil => exact absurd rfl h0
      | cons a as =>
        simp only [List.head?_cons, ne_eq, Option.some.injEq, not_not] at hh
        rw [hh]
        exact cleanPathRooted_head as

/-- The router of `main` on sample requests. -/
theorem router_samples :
    DefaultServeMux.ServeHTTP sampleLib (NewRequest "GET" "/hello" "" "" "") = .serve .hello ∧
      DefaultServeMux.ServeHTTP sampleLib (NewRequest "POST" "/form" "" "" "") = .serve .form ∧
      DefaultServeMux.ServeHTTP sampleLib (NewRequest "GET" "/" "" "" "")
        = .serve .fileServer ∧
      DefaultServeMux.ServeHTTP sampleLib (NewRequest "GET" "/hello/" "" "" "")
        = .serve .fileServer ∧
      DefaultServeMux.ServeHTTP sampleLib (NewRequest "GET" "/x/y" "" "" "")
        = .serve .fileServer ∧
      DefaultServeMux.ServeHTTP sampleLib (NewRequest "GET" "//hello" "q=1" "" "")
        = .serve (.redirect "/hello".toList "q=1".toList) ∧
      DefaultServeMux.ServeHTTP sampleLib (NewRequest "GET" "hello" "" "" "")
        = .serve (.redirect "/hello".toList []) ∧
      DefaultServeMux.ServeHTTP sampleLib (NewRequest "GET" "" "" "" "")
        = .serve (.redirect "/".toList []) ∧
      DefaultServeMux.ServeHTTP sampleLib (NewRequest "CONNECT" "hello" "" "" "")
        = .serve (.redirect "/hello/".toList []) ∧
      DefaultServeMux.ServeHTTP sampleLib (NewRequest "CONNECT" "xhello" "" "" "")
        = .serve .hello ∧
      DefaultServeMux.ServeHTTP sampleLib (NewRequest "CONNECT" "/a/../b" "" "" "")
        = .serve .fileServer ∧
      DefaultServeMux.ServeHTTP sampleLib
        { NewRequest "GET" "/a/../b" "" "" "" with
          URL := { Host := [], Path := "/a/../b".toList, EscapedPath := "/a/%2e%2e/b".toList,
                   RawQuery := [] } } = .serve .fileServer ∧
      DefaultServeMux.ServeHTTP sampleLib
        { NewRequest "GET" "/hello" "" "" "" with
          URL := { Host := [], Path := "/hello".toList, EscapedPath := "/%68ello".toList,
                   RawQuery := [] } } = .serve .hello ∧
      DefaultServeMux.ServeHTTP sampleLib (NewRequest "OPTIONS" "*" "" "" "") = .badRequest := by
  decide

/-! ### Unescaping a path -/

theorem unescapePathBuild_cons (c : Char) (s : Str) (hc : c ≠ '%') :
    unescapePathBuild (c :: s) = c :: unescapePathBuild s := by
  conv_lhs => unfold unescapePathBuild
  simp only [if_neg hc]

theorem unescapePathBuild_percent (a b : Char) (s : Str) :
    unescapePathBuild ('%' :: a :: b :: s)
      = Char.ofNat (unhex a * 16 + unhex b) :: unescapePathBuild s := by
  conv_lhs => unfold unescapePathBuild
  simp

/-- The first loop of `unescape` counts the escapes: without an escape the
second loop copies the text. -/
theorem unescapeScan_count (s : Str) (n m : Nat) (hp hp2 : Bool)
    (h : unescapeScan s n hp = .ok (m, hp2)) :
    n ≤ m ∧ (m = n → unescapePathBuild s = s) := by
  induction s using wellEscaped.induct generalizing n hp with
  | case1 =>
    simp only [unescapeScan, Except.ok.injEq, Prod.mk.injEq] at h
    exact ⟨by omega, fun _ => rfl⟩
  | case2 a b rest2 ih =>
    rw [unescapeScan_percent] at h
    split at h
    · simp at h
    · have := ih _ _ h
      exact ⟨by omega, fun hmn => by omega⟩
  | case3 rest hr =>
    exfalso
    match rest, hr with
    | [], _ => simp [unescapeScan] at h
    | [a], _ => simp [unescapeScan] at h
    | a :: b :: r, hr => exact hr a b r rfl
  | case4 c rest hc ih =>
    unfold unescapeScan at h
    simp only [if_neg hc] at h
    rw [unescapePathBuild_cons c rest hc]
    split at h
    · have := ih _ _ h
      exact ⟨this.1, fun hmn => by rw [this.2 hmn]⟩
    · have := ih _ _ h
      exact ⟨this.1, fun hmn => by rw [this.2 hmn]⟩

theorem PathUnescape_ok (s : Str) (h : wellEscaped s = true) :
    PathUnescape s = .ok (unescapePathBuild s) := by
  obtain ⟨v, hv⟩ := unescapeScan_ok s h 0 false
  unfold PathUnescape
  rw [hv]
  obtain ⟨m, hp2⟩ := v
  simp only
  split
  · rename_i h0
    rw [(unescapeScan_count s 0 m false hp2 hv).2 h0]
  · rfl

theorem PathUnescape_error (s : Str) (h : wellEscaped s = false) :
    ∃ e, PathUnescape s = .error e := by
  obtain ⟨e, he⟩ := unescapeScan_error s h 0 false
  unfold PathUnescape
  rw [he]
  exact ⟨_, rfl⟩

theorem PathUnescape_eq_ok_iff (s t : Str) :
    PathUnescape s = .ok t ↔ (wellEscaped s = true ∧ t = unescapePathBuild s) := by
  cases h : wellEscaped s with
  | true =>
    rw [PathUnescape_ok s h]
    simp only [Except.ok.injEq, true_and]
    exact eq_comm
  | false =>
    obtain ⟨e, he⟩ := PathUnescape_error s h
    rw [he]
    simp

/-- A slash of a validly escaped text is a slash of the unescaped text. -/
theorem slash_mem_unescapePathBuild (s : Str) (h : wellEscaped s = true) (hs : '/' ∈ s) :
    '/' ∈ unescapePathBuild s := by
  induction s using wellEscaped.induct with
  | case1 => simp at hs
  | case2 a b rest2 ih =>
    rw [wellEscaped_percent] at h
    simp only [Bool.and_eq_true] at h
    rw [unescapePathBuild_percent]
    simp only [List.mem_cons] at hs
    rcases hs with hs | hs | hs | hs
    · exact absurd hs (by decide)
    · rw [← hs] at h
      exact absurd h.1.1 (by decide)
    · rw [← hs] at h
      exact absurd h.1.2 (by decide)
    · exact List.mem_cons_of_mem _ (ih h.2 hs)
  | case3 rest hr =>
    exfalso
    match rest, hr with
    | [], _ => simp [wellEscaped_percent_nil] at h
    | [a], _ => simp [wellEscaped_percent_one] at h
    | a :: b :: r, hr => exact hr a b r rfl
  | case4 c rest hc ih =>
    rw [wellEscaped_other _ _ hc] at h
    rw [unescapePathBuild_cons c rest hc]
    simp only [List.mem_cons] at hs ⊢
    rcases hs with hs | hs
    · exact Or.inl hs
    · exact Or.inr (ih h hs)

/-! ### The routing tree of `main` -/

theorem DefaultServeMux_tree : DefaultServeMux.tree = mainTree := rfl

theorem matchPath_none (fuel : Nat) (path : Str) : matchPath fuel none path = none := by
  cases fuel <;> rfl

theorem matchPath_succ (fuel : Nat) (n : routingNode) (path : Str) :
    matchPath (fuel + 1) (some n) path =
      if path = [] then
        if n.pattern.isNone then none else some n
      else
        match matchPath fuel (n.findChild (firstSegment path).1) (firstSegment path).2 with
        | some l => some l
        | none =>
          match (if (firstSegment path).1 ≠ ['/'] then
              matchPath fuel n.emptyChild (firstSegment path).2 else none) with
          | some l => some l
          | none => n.multiChild := by
  rw [matchPath]

/-- A leaf without children matches the empty rest of a path only. -/
theorem matchPath_leaf (fuel : Nat) (p : pattern) (h : Handler) (rest : Str) :
    matchPath (fuel + 1) (some (.mk (some p) (some h) [] none none)) rest =
      if rest = [] then some (.mk (some p) (some h) [] none none) else none := by
  rw [matchPath_succ]
  split
  · rfl
  · have hfc : ∀ key, (routingNode.mk (some p) (some h) [] none none).findChild key = none := by
      intro key
      unfold routingNode.findChild
      split <;> rfl
    rw [hfc, matchPath_none]
    simp only [routingNode.emptyChild, matchPath_none, ite_self, routingNode.multiChild]

theorem methodNode_findChild (seg : Str) :
    methodNode.findChild seg =
      if seg = "hello".toList then some helloLeaf
      else if seg = "form".toList then some formLeaf
      else none := by
  by_cases h1 : seg = "hello".toList
  · subst h1; rfl
  by_cases h2 : seg = "form".toList
  · subst h2; rfl
  rw [if_neg h1, if_neg h2]
  unfold routingNode.findChild
  split
  · rfl
  · have g1 : ¬ ("hello".toList = seg) := fun h => h1 h.symm
    have g2 : ¬ ("form".toList = seg) := fun h => h2 h.symm
    simp only [methodNode, routingNode.children, List.find?, g1, g2, decide_False,
      Option.map_none']

/-- The tree of `main` matches a path with the leaf of `/hello` or `/form`
when the path has that one segment, else with the leaf of `/`. -/
theorem matchPath_methodNode (fuel : Nat) (path : Str) (hf : path.length + 1 ≤ fuel) :
    matchPath fuel (some methodNode) path = matchedLeaf path := by
  unfold matchedLeaf
  obtain ⟨k, rfl⟩ : ∃ k, fuel = k + 1 := ⟨fuel - 1, by omega⟩
  rw [matchPath_succ]
  by_cases hp : path = []
  · subst hp; rfl
  rw [if_neg hp, if_neg hp]
  have hk : ∃ j, k = j + 1 := by
    have : 0 < path.length := List.length_pos.mpr hp
    exact ⟨k - 1, by omega⟩
  obtain ⟨j, rfl⟩ := hk
  rw [methodNode_findChild]
  have hempty : methodNode.emptyChild = none := rfl
  have hmulti : methodNode.multiChild = some rootLeaf := rfl
  rw [hempty, hmulti]
  simp only [matchPath_none, ite_self]
  by_cases h1 : (firstSegment path).1 = "hello".toList
  · rw [if_pos h1]
    unfold helloLeaf
    rw [matchPath_leaf]
    by_cases hr : (firstSegment path).2 = []
    · rw [if_pos hr, if_pos ⟨h1, hr⟩]
    · rw [if_neg hr]
      have g1 : ¬ ((firstSegment path).1 = "hello".toList ∧ (firstSegment path).2 = []) :=
        fun h => hr h.2
      have g2 : ¬ ((firstSegment path).1 = "form".toList ∧ (firstSegment path).2 = []) :=
        fun h => hr h.2
      rw [if_neg g1, if_neg g2]
  have g1 : ¬ ((firstSegment path).1 = "hello".toList ∧ (firstSegment path).2 = []) :=
    fun h => h1 h.1
  rw [if_neg h1, if_neg g1]
  by_cases h2 : (firstSegment path).1 = "form".toList
  · rw [if_pos h2]
    unfold formLeaf
    rw [matchPath_leaf]
    by_cases hr : (firstSegment path).2 = []
    · rw [if_pos hr, if_pos ⟨h2, hr⟩]
    · have g2 : ¬ ((firstSegment path).1 = "form".toList ∧ (firstSegment path).2 = []) :=
        fun h => hr h.2
      rw [if_neg hr, if_neg g2]
  have g2 : ¬ ((firstSegment path).1 = "form".toList ∧ (firstSegment path).2 = []) :=
    fun h => h2 h.1
  rw [if_neg h2, if_neg g2, matchPath_none]

/-- `match` on the tree of `main`: neither the host nor the method matters. -/
theorem mainTree_match (host method path : Str) :
    mainTree.match host method path = matchedLeaf path := by
  have hroot : ∀ key, key ≠ [] → mainTree.findChild key = none := by
    intro key hk
    unfold routingNode.findChild
    rw [if_neg hk]
    rfl
  have hX := matchPath_methodNode (path.length + 1) path (Nat.le_refl _)
  have hinner : matchMethodAndPath mainTree.emptyChild method path = matchedLeaf path := by
    show matchMethodAndPath (some (.mk none none [] none (some methodNode))) method path = _
    unfold matchMethodAndPath
    simp only
    have hfc : ∀ key, (routingNode.mk none none [] none (some methodNode)).findChild key
        = if key = [] then some methodNode else none := by
      intro key
      unfold routingNode.findChild
      split <;> rfl
    have hec : (routingNode.mk none none [] none (some methodNode)).emptyChild
        = some methodNode := rfl
    have hget : (routingNode.mk none none [] none (some methodNode)).findChild "GET".toList
        = none := rfl
    rw [hfc, hget, hec]
    by_cases hm : method = []
    · subst hm
      rw [if_pos rfl, hX, if_neg (by decide)]
      cases hl : matchedLeaf path with
      | some l => rfl
      | none => rfl
    · rw [if_neg hm]
      simp only [matchPath_none, ite_self]
      exact hX
  unfold routingNode.match
  by_cases hh : host = []
  · subst hh
    rw [if_neg (fun h => h rfl)]
    exact hinner
  · rw [if_pos hh, hroot host hh]
    exact hinner

theorem dropWhile_length_le (p : Char → Bool) (l : Str) : (l.dropWhile p).length ≤ l.length := by
  induction l with
  | nil => simp
  | cons a as ih =>
    rw [List.dropWhile_cons]
    split
    · simp only [List.length_cons]
      omega
    · exact Nat.le_refl _

/-- The rest `firstSegment` leaves is shorter than the path. -/
theorem firstSegment_length (path : Str) (h : path ≠ []) :
    (firstSegment path).2.length < path.length := by
  unfold firstSegment
  split
  · rename_i h1
    rw [h1]
    decide
  · cases path with
    | nil => exact absurd rfl h
    | cons c tl =>
      simp only [List.tail_cons, List.length_cons]
      have := dropWhile_length_le (fun x => x != '/') tl
      omega

/-- More fuel than the length of the path does not change the result of
`matchPath`: the path ends before the fuel does. -/
theorem matchPath_fuel (f1 f2 : Nat) (n : Option routingNode) (path : Str)
    (h1 : path.length < f1) (h2 : path.length < f2) :
    matchPath f1 n path = matchPath f2 n path := by
  induction f1 generalizing f2 n path with
  | zero => omega
  | succ a ih =>
    obtain ⟨b, rfl⟩ : ∃ b, f2 = b + 1 := ⟨f2 - 1, by omega⟩
    cases n with
    | none => rw [matchPath_none, matchPath_none]
    | some n =>
      rw [matchPath_succ, matchPath_succ]
      split
      · rfl
      · rename_i hp
        have hlen := firstSegment_length path hp
        rw [ih b (n.findChild (firstSegment path).1) _ (by omega) (by omega),
          ih b n.emptyChild _ (by omega) (by omega)]

/-- More fuel than the length of the pattern does not change the result of
`parseSegments`. -/
theorem parseSegments_fuel (f1 f2 : Nat) (rest : Str) (h1 : rest.length ≤ f1)
    (h2 : rest.length ≤ f2) : parseSegments f1 rest = parseSegments f2 rest := by
  induction f1 generalizing f2 rest with
  | zero =>
    have hr : rest = [] := List.length_eq_zero.mp (Nat.le_zero.mp h1)
    subst hr
    cases f2 <;> rfl
  | succ a ih =>
    cases rest with
    | nil => cases f2 <;> rfl
    | cons c r =>
      simp only [List.length_cons] at h1 h2
      obtain ⟨b, rfl⟩ : ∃ b, f2 = b + 1 := ⟨f2 - 1, by omega⟩
      unfold parseSegments
      simp only
      split
      · rfl
      · have := dropWhile_length_le (fun x => x != '/') r
        rw [ih b _ (by omega) (by omega)]

theorem matchedLeaf_append_slash (t : Str) :
    matchedLeaf ('/' :: (t ++ ['/'])) = some rootLeaf := by
  have hne : ('/' :: (t ++ ['/'])) ≠ ['/'] := by
    intro h
    have := congrArg List.length h
    simp at this
  have hrest : (firstSegment ('/' :: (t ++ ['/']))).2 ≠ [] := by
    unfold firstSegment
    rw [if_neg hne]
    simp only [List.tail_cons]
    intro h
    rw [List.dropWhile_eq_nil_iff] at h
    have := h '/' (by simp)
    simp at this
  unfold matchedLeaf
  rw [if_neg (List.cons_ne_nil _ _), if_neg (fun h => hrest h.2), if_neg (fun h => hrest h.2)]

/-- A path that starts with a slash has no exact match once a slash is added
to it: the tree of `main` holds no pattern that ends in a slash but `/`. -/
theorem exactMatch_append_slash (t : Str) :
    exactMatch (matchedLeaf ('/' :: t ++ ['/'])) ('/' :: t ++ ['/']) = false := by
  rw [List.cons_append, matchedLeaf_append_slash]
  have hlast : ('/' :: (t ++ ['/'])).getLast? = some '/' := by
    rw [← List.cons_append, List.getLast?_concat]
  have hcount : ('/' :: (t ++ ['/'])).count '/' = t.count '/' + 2 := by
    simp [List.count_cons, List.count_append]
  unfold exactMatch
  simp only [rootLeaf, routingNode.pattern, pattern.lastSegment, List.getLastD_cons,
    List.getLastD_nil, Bool.not_true, Bool.false_eq_true, if_false, hlast, bne_self_eq_false,
    Bool.and_false, hcount, List.length_singleton]
  rw [beq_eq_false_iff_ne]
  omega

/-- On the router of `main` no path that starts with a slash is redirected
to the path with a slash added. -/
theorem matchOrRedirect_main (host method : Str) (t : Str) (u : Option URL) :
    DefaultServeMux.matchOrRedirect host method ('/' :: t) u
      = (matchedLeaf ('/' :: t), none) := by
  unfold ServeMux.matchOrRedirect
  rw [DefaultServeMux_tree]
  cases u with
  | none => simp only [mainTree_match]
  | some u =>
    simp only [mainTree_match, exactMatch_append_slash, Bool.false_eq_true, if_false, ite_self]

theorem nodeHandler_matchedLeaf (path : Str) :
    nodeHandler (matchedLeaf path) =
      if path = [] then .notFound
      else if (firstSegment path).1 = "hello".toList ∧ (firstSegment path).2 = [] then .hello
      else if (firstSegment path).1 = "form".toList ∧ (firstSegment path).2 = [] then .form
      else .fileServer := by
  unfold matchedLeaf
  split
  · rfl
  split
  · rfl
  split
  · rfl
  · rfl

/-- A text without a slash is one path element. -/
theorem takeWhile_no_slash (t : Str) (h : '/' ∉ t) :
    t.takeWhile (fun x => x != '/') = t ∧ t.dropWhile (fun x => x != '/') = [] := by
  have hall : ∀ x ∈ t, (x != '/') = true := by
    intro x hx
    rw [bne_iff_ne]
    intro hx2
    exact h (hx2 ▸ hx)
  exact ⟨List.takeWhile_eq_self_iff.mpr hall, List.dropWhile_eq_nil_iff.mpr hall⟩

theorem no_slash_of_dropWhile (t : Str) (h : t.dropWhile (fun x => x != '/') = []) :
    '/' ∉ t := by
  intro hm
  rw [List.dropWhile_eq_nil_iff] at h
  have := h '/' hm
  simp at this

/-- The path of a request whose escaped path is `/` and one element that
unescapes to `seg` is `/seg`, and conversely, for an element `seg` without a
slash. -/
theorem firstSegment_iff (t seg path : Str) (hesc : PathUnescape ('/' :: t) = .ok path)
    (hseg : '/' ∉ seg) (hne : seg ≠ []) (hne2 : seg ≠ ['/']) :
    ((firstSegment ('/' :: t)).1 = seg ∧ (firstSegment ('/' :: t)).2 = []) ↔
      path = '/' :: seg := by
  rw [PathUnescape_eq_ok_iff] at hesc
  obtain ⟨hw, hpath⟩ := hesc
  rw [unescapePathBuild_cons _ _ (by decide)] at hpath
  rw [wellEscaped_other _ _ (by decide)] at hw
  subst hpath
  by_cases ht : t = []
  · subst ht
    constructor
    · intro h
      exact absurd h.1.symm hne2
    · intro h
      simp only [unescapePathBuild, List.cons.injEq, true_and] at h
      exact absurd h.symm hne
  have hfs : firstSegment ('/' :: t) =
      (pathUnescape (t.takeWhile (fun x => x != '/')), t.dropWhile (fun x => x != '/')) := by
    unfold firstSegment
    rw [if_neg (by simpa using ht)]
    rfl
  rw [hfs]
  simp only
  have hpu : pathUnescape t = unescapePathBuild t := by
    unfold pathUnescape
    rw [PathUnescape_ok t hw]
  constructor
  · rintro ⟨h1, h2⟩
    have hns := no_slash_of_dropWhile t h2
    rw [(takeWhile_no_slash t hns).1, hpu] at h1
    rw [h1]
  · intro h
    simp only [List.cons.injEq, true_and] at h
    have hns : '/' ∉ t := by
      intro hm
      have := slash_mem_unescapePathBuild t hw hm
      rw [h] at this
      exact hseg this
    rw [(takeWhile_no_slash t hns).1, (takeWhile_no_slash t hns).2, hpu]
    exact ⟨h, rfl⟩

/-- The handler of the leaf the tree of `main` matches a path with, by the
unescaped path. -/
theorem nodeHandler_main (t path : Str) (hesc : PathUnescape ('/' :: t) = .ok path) :
    nodeHandler (matchedLeaf ('/' :: t)) =
      if path = "/hello".toList then .hello
      else if path = "/form".toList then .form
      else .fileServer := by
  rw [nodeHandler_matchedLeaf, if_neg (List.cons_ne_nil _ _)]
  have h1 := firstSegment_iff t "hello".toList path hesc (by decide) (by decide) (by decide)
  have h2 := firstSegment_iff t "form".toList path hesc (by decide) (by decide) (by decide)
  simp only [h1, h2]
  rfl

/-- The router of `main` in closed form, for a request whose escaped path
starts with a slash. -/
theorem findHandler_main (lib : Lib) (r : Request)
    (hesc : PathUnescape r.URL.EscapedPath = .ok r.URL.Path)
    (hslash : r.URL.EscapedPath.head? = some '/') :
    DefaultServeMux.findHandler lib r =
      if r.Method ≠ "CONNECT".toList ∧ cleanPath r.URL.EscapedPath ≠ r.URL.EscapedPath then
        .redirect (cleanPath r.URL.EscapedPath) r.URL.RawQuery
      else if r.URL.Path = "/hello".toList then .hello
      else if r.URL.Path = "/form".toList then .form
      else .fileServer := by
  obtain ⟨t, ht⟩ : ∃ t, r.URL.EscapedPath = '/' :: t := by
    cases h : r.URL.EscapedPath with
    | nil => rw [h] at hslash; simp at hslash
    | cons c t =>
      rw [h] at hslash
      simp only [List.head?_cons, Option.some.injEq] at hslash
      exact ⟨t, by rw [hslash]⟩
  obtain ⟨t2, ht2⟩ : ∃ t2, cleanPath r.URL.EscapedPath = '/' :: t2 := by
    have := cleanPath_head r.URL.EscapedPath
    cases h : cleanPath r.URL.EscapedPath with
    | nil => rw [h] at this; simp at this
    | cons c t2 =>
      rw [h] at this
      simp only [List.head?_cons, Option.some.injEq] at this
      exact ⟨t2, by rw [this]⟩
  unfold ServeMux.findHandler
  by_cases hm : r.Method = "CONNECT".toList
  · rw [if_pos hm, if_neg (fun h => h.1 hm)]
    rw [ht, matchOrRedirect_main, matchOrRedirect_main]
    simp only
    rw [ht] at hesc
    exact nodeHandler_main t _ hesc
  · rw [if_neg hm]
    rw [ht2, matchOrRedirect_main]
    simp only
    by_cases hc : ('/' :: t2) = r.URL.EscapedPath
    · have hc2 : ¬ (r.Method ≠ "CONNECT".toList ∧ ('/' :: t2) ≠ r.URL.EscapedPath) :=
        fun h => h.2 hc
      rw [if_neg (not_not.mpr hc), if_neg hc2]
      rw [hc, ht]
      rw [ht] at hesc
      exact nodeHandler_main t _ hesc
    · rw [if_pos hc, if_pos ⟨hm, hc⟩]

/-- A request whose escaped path does not start with a slash (the empty path
of `GET http://host`, say) and whose method is not `CONNECT` is answered with
a redirect to the cleaned path. -/
theorem router_rootless_path_redirects (lib : Lib) (r : Request)
    (huri : r.RequestURI ≠ ['*']) (hm : r.Method ≠ "CONNECT".toList)
    (hns : r.URL.EscapedPath.head? ≠ some '/') :
    DefaultServeMux.ServeHTTP lib r
      = .serve (.redirect (cleanPath r.URL.EscapedPath) r.URL.RawQuery) := by
  obtain ⟨t2, ht2⟩ : ∃ t2, cleanPath r.URL.EscapedPath = '/' :: t2 := by
    have := cleanPath_head r.URL.EscapedPath
    cases h : cleanPath r.URL.EscapedPath with
    | nil => rw [h] at this; simp at this
    | cons c t2 =>
      rw [h] at this
      simp only [List.head?_cons, Option.some.injEq] at this
      exact ⟨t2, by rw [this]⟩
  have hne : ('/' :: t2) ≠ r.URL.EscapedPath := by
    intro h
    rw [← h] at hns
    exact hns rfl
  unfold ServeMux.ServeHTTP
  rw [if_neg huri]
  unfold ServeMux.findHandler
  rw [if_neg hm, ht2, matchOrRedirect_main]
  simp only
  rw [if_pos hne]

/-- A path of one element other than `.` and `..` is in canonical form. -/
theorem cleanPath_one_element (t : Str) (hs : '/' ∉ t) (hne : t ≠ []) (hd : t ≠ ['.'])
    (hdd : t ≠ ['.', '.']) : cleanPath ('/' :: t) = '/' :: t := by
  obtain ⟨c, tl, rfl⟩ : ∃ c tl, t = c :: tl := by
    cases t with
    | nil => exact absurd rfl hne
    | cons c tl => exact ⟨c, tl, rfl⟩
  have hc : c ≠ '/' := fun h => hs (by rw [h]; exact List.mem_cons_self _ _)
  have htl : '/' ∉ tl := fun h => hs (List.mem_cons_of_mem _ h)
  have hhead : tl.head? ≠ some '/' := by
    intro h
    cases tl with
    | nil => simp at h
    | cons a as =>
      simp only [List.head?_cons, Option.some.injEq] at h
      exact htl (by rw [h]; exact List.mem_cons_self _ _)
  have hhead2 : tl.tail.head? ≠ some '/' := by
    intro h
    cases tl with
    | nil => simp at h
    | cons a as =>
      cases as with
      | nil => simp at h
      | cons b bs =>
        simp only [List.tail_cons, List.head?_cons, Option.some.injEq] at h
        exact htl (by rw [h]; simp)
  have hclean : Clean ('/' :: c :: tl) = '/' :: c :: tl := by
    unfold Clean
    simp only [if_true, List.length_cons]
    rw [cleanLoop_succ, if_neg hc]
    have c2 : ¬ ((c = '.' && (tl = [] || tl.head? = some '/')) = true) := by
      simp only [Bool.and_eq_true, Bool.or_eq_true, decide_eq_true_eq]
      rintro ⟨h1, h2 | h2⟩
      · exact hd (by rw [h1, h2])
      · exact hhead h2
    have c3 : ¬ ((c = '.' && tl.head? = some '.' && (tl.tail = [] || tl.tail.head? = some '/'))
        = true) := by
      simp only [Bool.and_eq_true, Bool.or_eq_true, decide_eq_true_eq]
      rintro ⟨⟨h1, h2⟩, h3 | h3⟩
      · apply hdd
        cases tl with
        | nil => simp at h2
        | cons a as =>
          simp only [List.head?_cons, Option.some.injEq] at h2
          simp only [List.tail_cons] at h3
          rw [h1, h2, h3]
      · exact hhead2 h3
    rw [if_neg c2, if_neg c3]
    have hs2 : '/' ∉ c :: tl := hs
    rw [(takeWhile_no_slash _ hs2).1, (takeWhile_no_slash _ hs2).2]
    have hloop : ∀ (fuel : Nat) (out : Str) (d : Nat), cleanLoop true fuel [] out d = out := by
      intro fuel out d
      cases fuel <;> rfl
    rw [hloop]
    simp
  unfold cleanPath
  rw [if_neg (List.cons_ne_nil _ _)]
  simp only [List.head?_cons, ne_eq, not_true_eq_false, if_false, hclean]
  have hlast : ('/' :: c :: tl).getLast? ≠ some '/' := by
    intro h
    rw [List.getLast?_cons_cons] at h
    exact hs (List.mem_of_getLast?_eq_some h)
  rw [List.getLast?_cons_cons] at hlast
  simp [hlast]

/-- A path that unescapes to `/` and one element other than `.` and `..` is
in canonical form. -/
theorem cleanPath_of_unescaped (ep seg : Str) (hslash : ep.head? = some '/')
    (hesc : PathUnescape ep = .ok ('/' :: seg)) (hseg : '/' ∉ seg) (hne : seg ≠ [])
    (hd : seg ≠ ['.']) (hdd : seg ≠ ['.', '.']) : cleanPath ep = ep := by
  obtain ⟨t, rfl⟩ : ∃ t, ep = '/' :: t := by
    cases ep with
    | nil => simp at hslash
    | cons c t =>
      simp only [List.head?_cons, Option.some.injEq] at hslash
      exact ⟨t, by rw [hslash]⟩
  rw [PathUnescape_eq_ok_iff] at hesc
  obtain ⟨hw, hpath⟩ := hesc
  rw [unescapePathBuild_cons _ _ (by decide)] at hpath
  rw [wellEscaped_other _ _ (by decide)] at hw
  simp only [List.cons.injEq, true_and] at hpath
  apply cleanPath_one_element
  · intro hm
    have := slash_mem_unescapePathBuild t hw hm
    rw [← hpath] at this
    exact hseg this
  · intro h
    rw [h] at hpath
    exact hne hpath
  · intro h
    rw [h] at hpath
    exact hd hpath
  · intro h
    rw [h] at hpath
    exact hdd hpath

/-- C8, as the code has it: for a request whose `RequestURI` is not `*` and
whose escaped URL path starts with a slash and unescapes to the URL path, the
router of `main` calls `helloHandler` exactly when the path is `/hello` and
`formHandler` exactly when the path is `/form`.  A request with any other
path goes to the static file responder when its method is `CONNECT` or its
escaped path is in canonical form (`cleanPath` leaves it unchanged; `/hello/`,
`/hellox` and `/form/a` are); else the router itself answers with a redirect
to the cleaned escaped path and calls none of the three handlers.  A request
that reaches `helloHandler` through the router never gets its 404 response. -/
theorem router_dispatch (lib : Lib) (r : Request) (huri : r.RequestURI ≠ ['*'])
    (hesc : PathUnescape r.URL.EscapedPath = .ok r.URL.Path)
    (hslash : r.URL.EscapedPath.head? = some '/') :
    (DefaultServeMux.ServeHTTP lib r = .serve .hello ↔ r.URL.Path = "/hello".toList) ∧
    (DefaultServeMux.ServeHTTP lib r = .serve .form ↔ r.URL.Path = "/form".toList) ∧
    (r.URL.Path ≠ "/hello".toList → r.URL.Path ≠ "/form".toList →
      DefaultServeMux.ServeHTTP lib r =
        if r.Method = "CONNECT".toList ∨ cleanPath r.URL.EscapedPath = r.URL.EscapedPath then
          .serve .fileServer
        else .serve (.redirect (cleanPath r.URL.EscapedPath) r.URL.RawQuery)) ∧
    (DefaultServeMux.ServeHTTP lib r = .serve .hello →
      (helloHandler ResponseWriter.fresh r).code ≠ 404) := by
  have hserve : DefaultServeMux.ServeHTTP lib r = .serve (DefaultServeMux.findHandler lib r) := by
    unfold ServeMux.ServeHTTP
    rw [if_neg huri]
  rw [hserve, findHandler_main lib r hesc hslash]
  have hello_iff : Dispatch.serve
      (if r.Method ≠ "CONNECT".toList ∧ cleanPath r.URL.EscapedPath ≠ r.URL.EscapedPath then
        Handler.redirect (cleanPath r.URL.EscapedPath) r.URL.RawQuery
      else if r.URL.Path = "/hello".toList then .hello
      else if r.URL.Path = "/form".toList then .form
      else .fileServer) = .serve .hello ↔ r.URL.Path = "/hello".toList := by
    constructor
    · intro h
      have h := Dispatch.serve.inj h
      split at h
      · exact absurd h (by simp)
      split at h
      · assumption
      split at h
      · exact absurd h (by simp)
      · exact absurd h (by simp)
    · intro h
      have hc := cleanPath_of_unescaped r.URL.EscapedPath "hello".toList hslash
        (by rw [hesc, h]; rfl) (by decide) (by decide) (by decide) (by decide)
      rw [if_neg (fun g => g.2 hc), if_pos h]
  refine ⟨hello_iff, ?_, ?_, ?_⟩
  · constructor
    · intro h
      have h := Dispatch.serve.inj h
      split at h
      · exact absurd h (by simp)
      split at h
      · exact absurd h (by simp)
      split at h
      · assumption
      · exact absurd h (by simp)
    · intro h
      have hc := cleanPath_of_unescaped r.URL.EscapedPath "form".toList hslash
        (by rw [hesc, h]; rfl) (by decide) (by decide) (by decide) (by decide)
      have hne : ¬ (r.URL.Path = "/hello".toList) := by rw [h]; decide
      rw [if_neg (fun g => g.2 hc), if_neg hne, if_pos h]
  · intro h1 h2
    rw [if_neg h1, if_neg h2]
    by_cases hm : r.Method = "CONNECT".toList
    · rw [if_neg (fun g => g.1 hm), if_pos (Or.inl hm)]
    · by_cases hc : cleanPath r.URL.EscapedPath = r.URL.EscapedPath
      · rw [if_neg (fun g => g.2 hc), if_pos (Or.inr hc)]
      · rw [if_pos ⟨hm, hc⟩, if_neg (fun g => g.elim hm hc)]
  · intro h
    have hp := hello_iff.mp h
    unfold helloHandler
    simp only [hp, ne_eq, not_true_eq_false, if_false]
    split
    · rw [Error_code]; decide
    · rw [Fprintf_code]; decide

/-- The paths the claim names go to the file responder, `/hello` to
`helloHandler`, also when it arrives escaped. -/
theorem router_dispatch_witness :
    DefaultServeMux.ServeHTTP sampleLib (NewRequest "GET" "/hello/" "" "" "")
        = .serve .fileServer ∧
      DefaultServeMux.ServeHTTP sampleLib
        (NewRequest "GET" "/hellox" "" "" "") = .serve .fileServer ∧
      DefaultServeMux.ServeHTTP sampleLib
        (NewRequest "POST" "/form/a" "" "" "") = .serve .fileServer ∧
      DefaultServeMux.ServeHTTP sampleLib
        { NewRequest "GET" "/hello" "" "" "" with
          URL := { Host := [], Path := "/hello".toList, EscapedPath := "/%68ello".toList,
                   RawQuery := [] } } = .serve .hello ∧
      (helloHandler ResponseWriter.fresh (NewRequest "PUT" "/hello" "" "" "")).code ≠ 404 :=
  ⟨(router_dispatch sampleLib (NewRequest "GET" "/hello/" "" "" "")
      (by decide) rfl rfl).2.2.1 (by decide) (by decide),
    (router_dispatch sampleLib (NewRequest "GET" "/hellox" "" "" "")
      (by decide) rfl rfl).2.2.1 (by decide) (by decide),
    (router_dispatch sampleLib (NewRequest "POST" "/form/a" "" "" "")
      (by decide) rfl rfl).2.2.1 (by decide) (by decide),
    (router_dispatch sampleLib
      { NewRequest "GET" "/hello" "" "" "" with
        URL := { Host := [], Path := "/hello".toList, EscapedPath := "/%68ello".toList,
                 RawQuery := [] } }
      (by decide) rfl rfl).1.mpr rfl,
    (router_dispatch sampleLib (NewRequest "PUT" "/hello" "" "" "")
      (by decide) rfl rfl).2.2.2
      ((router_dispatch sampleLib (NewRequest "PUT" "/hello" "" "" "")
        (by decide) rfl rfl).1.mpr (by decide))⟩

/-- C8 as stated fails: the paths `//hello` and `/a/../b` are neither
`/hello` nor `/form`, yet the router does not pass the request to the static
file responder: it answers with a redirect to the cleaned path (`/hello`,
`/b`). -/
theorem router_unclean_path_redirects :
    (NewRequest "GET" "//hello" "" "" "").URL.Path ≠ "/hello".toList ∧
      (NewRequest "GET" "//hello" "" "" "").URL.Path ≠ "/form".toList ∧
      (∀ lib : Lib,
        DefaultServeMux.ServeHTTP lib (NewRequest "GET" "//hello" "" "" "")
          = .serve (.redirect "/hello".toList []) ∧
        DefaultServeMux.ServeHTTP lib (NewRequest "GET" "//hello" "" "" "")
          ≠ .serve .fileServer) ∧
      (∀ lib : Lib,
        DefaultServeMux.ServeHTTP lib (NewRequest "GET" "/a/../b" "" "" "")
          = .serve (.redirect "/b".toList []) ∧
        DefaultServeMux.ServeHTTP lib (NewRequest "GET" "/a/../b" "" "" "")
          ≠ .serve .fileServer) := by
  have h1 : ∀ lib : Lib, DefaultServeMux.ServeHTTP lib (NewRequest "GET" "//hello" "" "" "")
      = .serve (.redirect "/hello".toList []) := by
    intro lib
    unfold ServeMux.ServeHTTP
    rw [if_neg (by decide),
      findHandler_main lib (NewRequest "GET" "//hello" "" "" "") rfl rfl]
    decide
  have h2 : ∀ lib : Lib, DefaultServeMux.ServeHTTP lib (NewRequest "GET" "/a/../b" "" "" "")
      = .serve (.redirect "/b".toList []) := by
    intro lib
    unfold ServeMux.ServeHTTP
    rw [if_neg (by decide),
      findHandler_main lib (NewRequest "GET" "/a/../b" "" "" "") rfl rfl]
    decide
  refine ⟨by decide, by decide, fun lib => ⟨h1 lib, ?_⟩, fun lib => ⟨h2 lib, ?_⟩⟩
  · rw [h1 lib]; decide
  · rw [h2 lib]; decide

/-- The file responder on sample requests. -/
theorem fileServer_samples :
    Dir.fullName "./static".toList "/../../etc/passwd".toList = "static/etc/passwd".toList ∧
      Dir.fullName "./static".toList "/".toList = "static".toList ∧
      fileServer sampleFS (NewRequest "GET" "/" "" "" "")
        = .serveContent "static/index.html".toList ∧
      fileServer sampleFS (NewRequest "GET" "/index.html" "" "" "")
        = .localRedirect "./".toList ∧
      fileServer sampleFS (NewRequest "GET" "/etc" "" "" "") = .localRedirect "etc/".toList ∧
      fileServer sampleFS (NewRequest "GET" "/etc/" "" "" "") = .dirList "static/etc".toList ∧
      fileServer sampleFS (NewRequest "GET" "/etc/passwd/" "" "" "")
        = .localRedirect "../passwd".toList ∧
      fileServer sampleFS (NewRequest "GET" "/missing-file" "" "" "")
        = .error "404 page not found".toList 404 ∧
      fileServer sampleFS (NewRequest "GET" "/../.." "" "" "")
        = .localRedirect "../".toList ∧
      fileServer emptyFS (NewRequest "GET" "/" "" "" "")
        = .error "404 page not found".toList 404 ∧
      fileServer ⟨fun _ => .file false⟩ (NewRequest "GET" "/" "" "" "")
        = .error "http: attempting to traverse a non-directory".toList 500 ∧
      fileServer sampleFS { NewRequest "GET" "/" "" "" "" with
          URL := { Host := [], Path := ['/', 'a', Char.ofNat 0], EscapedPath := "/a%00".toList,
                   RawQuery := [] } }
        = .error "500 Internal Server Error".toList 500 ∧
      fileServer sampleFS { NewRequest "GET" "/" "" "" "" with
          URL := { Host := [], Path := ['/', Char.ofNat 0xFF], EscapedPath := "/%FF".toList,
                   RawQuery := [] } }
        = .error "500 Internal Server Error".toList 500 := by
  decide

/-- `utf8.ValidString` and `fs.ValidPath` on sample texts. -/
theorem ValidPath_samples :
    ValidString "abc/def".toList = true ∧
      ValidString [Char.ofNat 0xC3, Char.ofNat 0xA9] = true ∧
      ValidString [Char.ofNat 0xE2, Char.ofNat 0x82, Char.ofNat 0xAC, 'x'] = true ∧
      ValidString [Char.ofNat 0xF0, Char.ofNat 0x9F, Char.ofNat 0x98, Char.ofNat 0x80] = true ∧
      ValidString [Char.ofNat 0xC3] = false ∧
      ValidString [Char.ofNat 0xC0, Char.ofNat 0x80] = false ∧
      ValidString [Char.ofNat 0xED, Char.ofNat 0xA0, Char.ofNat 0x80] = false ∧
      ValidString [Char.ofNat 0xFF] = false ∧
      ValidPath ".".toList = true ∧
      ValidPath "a/b.txt".toList = true ∧
      ValidPath [] = false ∧
      ValidPath "a//b".toList = false ∧
      ValidPath "a/".toList = false ∧
      ValidPath "/a".toList = false ∧
      ValidPath "a/../b".toList = false ∧
      Localize "etc/passwd".toList = some "etc/passwd".toList ∧
      Localize ['a', Char.ofNat 0] = none := by
  decide

/-- More fuel than the length of the text does not change the result of the
loop of `utf8.ValidString`: the loop ends before the fuel does. -/
theorem validStringLoop_fuel (f1 f2 : Nat) (s : Str) (h1 : s.length ≤ f1) (h2 : s.length ≤ f2) :
    validStringLoop f1 s = validStringLoop f2 s := by
  induction f1 generalizing f2 s with
  | zero =>
    have hs : s = [] := List.length_eq_zero.mp (Nat.le_zero.mp h1)
    subst hs
    cases f2 <;> rfl
  | succ a ih =>
    cases s with
    | nil => cases f2 <;> rfl
    | cons si rest =>
      obtain ⟨b, rfl⟩ : ∃ b, f2 = b + 1 := ⟨f2 - 1, by simp only [List.length_cons] at h2; omega⟩
      simp only [List.length_cons] at h1 h2
      have hd : ∀ k, (rest.drop k).length ≤ rest.length := fun k => by
        rw [List.length_drop]; omega
      unfold validStringLoop
      simp only
      split
      · exact ih b rest (by omega) (by omega)
      split
      · rfl
      split
      · rfl
      split
      · rfl
      split
      · exact ih b _ (by have := hd 1; omega) (by have := hd 1; omega)
      split
      · rfl
      split
      · exact ih b _ (by have := hd 2; omega) (by have := hd 2; omega)
      split
      · rfl
      · exact ih b _ (by have := hd 3; omega) (by have := hd 3; omega)

/-- More fuel than the length of the name does not change the result of the
loop of `fs.ValidPath`: the loop ends before the fuel does. -/
theorem validPathLoop_fuel (f1 f2 : Nat) (name : Str) (h1 : name.length < f1)
    (h2 : name.length < f2) : validPathLoop f1 name = validPathLoop f2 name := by
  induction f1 generalizing f2 name with
  | zero => omega
  | succ a ih =>
    obtain ⟨b, rfl⟩ : ∃ b, f2 = b + 1 := ⟨f2 - 1, by omega⟩
    unfold validPathLoop
    split
    · rfl
    split
    · rfl
    · rename_i hel _
      have hpos : 0 < name.length := by
        cases name with
        | nil => simp at hel
        | cons c cs => simp
      have hlen : (name.drop ((name.takeWhile (fun x => x != '/')).length + 1)).length
          < name.length := by
        rw [List.length_drop]; omega
      exact ih b _ (by omega) (by omega)

/-- `path.Base`, `splitSlash` and `underRoot` on sample names. -/
theorem underRoot_samples :
    Base "/a/b/".toList = "b".toList ∧
      Base "///".toList = "/".toList ∧
      Base "abc".toList = "abc".toList ∧
      Base [] = ".".toList ∧
      splitSlash "a//b/".toList = ["a".toList, [], "b".toList, []] ∧
      underRoot "static".toList "static/etc/passwd".toList = true ∧
      underRoot "static".toList "static".toList = true ∧
      underRoot "static".toList "static/../etc/passwd".toList = false ∧
      underRoot "static".toList "staticx/a".toList = false ∧
      underRoot "static".toList "etc/passwd".toList = false := by
  decide

/-! ### `path.Clean` keeps a rooted path rooted and free of `..` -/

theorem splitSlash_cons_slash (cs : Str) : splitSlash ('/' :: cs) = [] :: splitSlash cs := by
  rw [splitSlash, if_pos rfl]

theorem splitSlash_ne_nil (s : Str) : splitSlash s ≠ [] := by
  induction s with
  | nil => simp [splitSlash]
  | cons c cs ih =>
    unfold splitSlash
    split
    · simp
    · split <;> simp

theorem splitSlash_cons_other (c : Char) (cs : Str) (hc : c ≠ '/') :
    splitSlash (c :: cs) = (c :: (splitSlash cs).headD []) :: (splitSlash cs).tail := by
  rw [splitSlash, if_neg hc]
  have := splitSlash_ne_nil cs
  cases h : splitSlash cs with
  | nil => exact absurd h this
  | cons seg segs => rfl

theorem splitSlash_no_slash (s : Str) (h : '/' ∉ s) : splitSlash s = [s] := by
  induction s with
  | nil => rfl
  | cons c cs ih =>
    simp only [List.mem_cons, not_or] at h
    rw [splitSlash_cons_other c cs (fun e => h.1 e.symm), ih h.2]
    rfl

theorem splitSlash_append_no_slash (a b : Str) (h : '/' ∉ a) :
    splitSlash (a ++ '/' :: b) = a :: splitSlash b := by
  induction a with
  | nil => exact splitSlash_cons_slash b
  | cons c cs ih =>
    simp only [List.mem_cons, not_or] at h
    rw [List.cons_append, splitSlash_cons_other c _ (fun e => h.1 e.symm), ih h.2]
    rfl

theorem splitSlash_append_slash (a b : Str) :
    splitSlash (a ++ '/' :: b) = splitSlash a ++ splitSlash b := by
  induction a with
  | nil => rw [List.nil_append, splitSlash_cons_slash]; rfl
  | cons c cs ih =>
    by_cases hc : c = '/'
    · subst hc
      rw [List.cons_append, splitSlash_cons_slash, splitSlash_cons_slash, ih]
      rfl
    · rw [List.cons_append, splitSlash_cons_other c _ hc, splitSlash_cons_other c _ hc, ih]
      have := splitSlash_ne_nil cs
      cases h : splitSlash cs with
      | nil => exact absurd h this
      | cons seg segs => rfl

/-- The final write index of the `..` case: not above the start, and either
at `dotdot` (or below) or at a slash. -/
theorem backtrack_spec (buf : Str) (dotdot w : Nat) :
    backtrack buf dotdot w ≤ w ∧
      (backtrack buf dotdot w ≤ dotdot ∨ buf.getD (backtrack buf dotdot w) '/' = '/') := by
  induction w with
  | zero => simp [backtrack]
  | succ w ih =>
    unfold backtrack
    split
    · exact ⟨Nat.le_succ_of_le ih.1, ih.2⟩
    · rename_i hc
      refine ⟨Nat.le_refl _, ?_⟩
      simp only [Bool.and_eq_true, decide_eq_true_eq, bne_iff_ne, ne_eq, not_and, not_not] at hc
      by_cases hd : dotdot < w + 1
      · exact Or.inr (hc hd)
      · exact Or.inl (by omega)

theorem split_at_getD (t : Str) (j : Nat) (hj : j < t.length) (h : t.getD j '/' = '/') :
    t = t.take j ++ '/' :: t.drop (j + 1) := by
  rw [List.getD_eq_getElem _ _ hj] at h
  conv_lhs => rw [← List.take_append_drop j t, List.drop_eq_getElem_cons hj, h]

/-- The element the real-element case of `path.Clean` copies is a real
element without a slash. -/
theorem takeWhile_real (c : Char) (tl : Str) (h1 : c ≠ '/')
    (h2 : ¬ ((c = '.' && (tl = [] || tl.head? = some '/')) = true))
    (h3 : ¬ ((c = '.' && tl.head? = some '.' && (tl.tail = [] || tl.tail.head? = some '/'))
      = true)) :
    realElem ((c :: tl).takeWhile (fun x => x != '/')) = true ∧
      '/' ∉ (c :: tl).takeWhile (fun x => x != '/') := by
  constructor
  · have hc : (c != '/') = true := by simpa using h1
    rw [List.takeWhile_cons, hc]
    simp only [if_true]
    unfold realElem
    simp only [Bool.and_eq_true, bne_iff_ne, ne_eq, reduceCtorEq, not_false_eq_true, true_and,
      List.cons.injEq, not_and]
    constructor
    · intro hdot htw
      apply h2
      subst hdot
      cases tl with
      | nil => simp
      | cons a as =>
        rw [List.takeWhile_cons] at htw
        by_cases ha : a = '/'
        · simp [ha]
        · simp [ha] at htw
    · intro hdot htw
      apply h3
      subst hdot
      cases tl with
      | nil => simp at htw
      | cons a as =>
        rw [List.takeWhile_cons] at htw
        by_cases ha : a = '/'
        · simp [ha] at htw
        · simp only [bne_iff_ne, ne_eq, ha, not_false_eq_true, if_true, List.cons.injEq] at htw
          obtain ⟨ha2, has⟩ := htw
          subst ha2
          cases as with
          | nil => simp
          | cons b bs =>
            rw [List.takeWhile_cons] at has
            by_cases hb : b = '/'
            · simp [hb]
            · simp [hb] at has
  · intro hmem
    have := List.mem_takeWhile_imp hmem
    simp at this

/-- The loop of `path.Clean` on a rooted path keeps the output a cleaned
rooted path. -/
theorem cleanLoop_rooted_inv (fuel : Nat) (rest out : Str) (h : RootedClean out) :
    RootedClean (cleanLoop true fuel rest out 1) := by
  induction fuel generalizing rest out with
  | zero => simpa [cleanLoop] using h
  | succ fuel ih =>
    cases rest with
    | nil => simpa [cleanLoop] using h
    | cons c tl =>
      rw [cleanLoop_succ]
      split
      · exact ih _ _ h
      split
      · exact ih _ _ h
      split
      · split
        · rename_i hlen
          apply ih
          obtain ⟨t, rfl, ht⟩ := h
          have hlen2 : 0 < t.length := by simpa using hlen
          have hspec := backtrack_spec ('/' :: t) 1 (('/' :: t).length - 1)
          have hge := backtrack_ge ('/' :: t) 1 (('/' :: t).length - 1)
            (by simp only [List.length_cons]; omega)
          generalize backtrack ('/' :: t) 1 (('/' :: t).length - 1) = k at hspec hge
          obtain ⟨j, rfl⟩ : ∃ j, k = j + 1 := ⟨k - 1, by omega⟩
          rw [List.take_succ_cons]
          refine ⟨_, rfl, ?_⟩
          rcases hspec.2 with hle | hsl
          · left
            have : j = 0 := by omega
            subst this
            rfl
          · right
            have hjl : j < t.length := by
              have := hspec.1
              simp only [List.length_cons, Nat.add_sub_cancel] at this
              omega
            have hsl2 : t.getD j '/' = '/' := by simpa using hsl
            have hsplit := split_at_getD t j hjl hsl2
            rcases ht with ht | ht
            · subst ht
              simp at hlen2
            · intro seg hseg
              apply ht
              rw [hsplit, splitSlash_append_slash]
              exact List.mem_append_left _ hseg
        · split
          · rename_i h5
            simp at h5
          · exact ih _ _ h
      · rename_i h1 h2 h3
        apply ih
        obtain ⟨t, rfl, ht⟩ := h
        have hreal := takeWhile_real c tl h1 h2 h3
        by_cases ht0 : t = []
        · subst ht0
          refine ⟨(c :: tl).takeWhile (fun x => x != '/'), by simp, Or.inr ?_⟩
          rw [splitSlash_no_slash _ hreal.2]
          simpa using hreal.1
        · have hl : ('/' :: t).length ≠ 1 := by
            simp only [List.length_cons, ne_eq, Nat.add_left_eq_self]
            exact fun h0 => ht0 (List.length_eq_zero.mp h0)
          refine ⟨t ++ '/' :: (c :: tl).takeWhile (fun x => x != '/'), by simp [ht0], Or.inr ?_⟩
          rw [splitSlash_append_slash, splitSlash_no_slash _ hreal.2]
          intro seg hseg
          rcases List.mem_append.mp hseg with hm | hm
          · exact (ht.resolve_left ht0) seg hm
          · rw [List.mem_singleton] at hm
            subst hm
            exact hreal.1

/-- `path.Clean` of a rooted path is a cleaned rooted path. -/
theorem Clean_rooted (name : Str) : RootedClean (Clean ('/' :: name)) := by
  have h := cleanLoop_rooted_inv ('/' :: name).length name ['/'] ⟨[], rfl, Or.inl rfl⟩
  unfold Clean
  simp only [if_true]
  split
  · rename_i h0
    obtain ⟨t, ht, _⟩ := h
    rw [ht] at h0
    simp at h0
  · exact h

theorem underRoot_iff (root n : Str) :
    underRoot root n = true ↔
      ∃ segs, splitSlash n = root :: segs ∧ ∀ seg ∈ segs, realElem seg = true := by
  unfold underRoot
  cases h : splitSlash n with
  | nil => simp
  | cons first rest =>
    simp only [Bool.and_eq_true, beq_iff_eq, List.all_eq_true, List.cons.injEq]
    constructor
    · rintro ⟨rfl, hr⟩
      exact ⟨rest, ⟨rfl, rfl⟩, hr⟩
    · rintro ⟨segs, ⟨rfl, rfl⟩, hr⟩
      exact ⟨rfl, hr⟩

/-- The loop of `path.Clean` on a path that is not rooted and has no `..`
element only appends real elements to a non-empty output. -/
theorem cleanLoop_unrooted_inv (root : Str) (fuel : Nat) (rest out : Str) (d : Nat)
    (hne : out ≠ []) (hu : underRoot root out = true) (hnd : NoDotDot rest) :
    underRoot root (cleanLoop false fuel rest out d) = true := by
  induction fuel generalizing rest out d with
  | zero => simpa [cleanLoop] using hu
  | succ fuel ih =>
    cases rest with
    | nil => simpa [cleanLoop] using hu
    | cons c tl =>
      rw [cleanLoop_succ]
      split
      · rename_i h1
        subst h1
        apply ih _ _ _ hne hu
        unfold NoDotDot at hnd ⊢
        rw [splitSlash_cons_slash] at hnd
        exact fun hm => hnd (List.mem_cons_of_mem _ hm)
      split
      · rename_i h1 h2
        simp only [Bool.and_eq_true, decide_eq_true_eq, Bool.or_eq_true] at h2
        obtain ⟨hc, htl⟩ := h2
        subst hc
        apply ih _ _ _ hne hu
        unfold NoDotDot at hnd ⊢
        cases tl with
        | nil => simp [splitSlash]
        | cons a as =>
          have ha : a = '/' := by simpa using htl
          subst ha
          rw [splitSlash_cons_slash]
          rw [show ('.' :: '/' :: as) = ['.'] ++ '/' :: as from rfl,
            splitSlash_append_no_slash _ _ (by decide)] at hnd
          intro hm
          rcases List.mem_cons.mp hm with h0 | h0
          · exact absurd h0 (by decide)
          · exact hnd (List.mem_cons_of_mem _ h0)
      split
      · rename_i h1 h2 h3
        exfalso
        simp only [Bool.and_eq_true, decide_eq_true_eq, Bool.or_eq_true] at h3
        obtain ⟨⟨hc, hhd⟩, htl⟩ := h3
        subst hc
        apply hnd
        cases tl with
        | nil => simp at hhd
        | cons a as =>
          have ha : a = '.' := by simpa using hhd
          subst ha
          cases as with
          | nil => simp [splitSlash]
          | cons b bs =>
            have hb : b = '/' := by simpa using htl
            subst hb
            rw [show ('.' :: '.' :: '/' :: bs) = ['.', '.'] ++ '/' :: bs from rfl,
              splitSlash_append_no_slash _ _ (by decide)]
            exact List.mem_cons_self _ _
      · rename_i h1 h2 h3
        have hreal := takeWhile_real c tl h1 h2 h3
        have hlen : out.length ≠ 0 := fun h0 => hne (List.length_eq_zero.mp h0)
        have hout : (if ((false && out.length != 1) || (!false && out.length != 0)) = true
            then out ++ ['/'] else out) = out ++ ['/'] := by
          simp [hlen]
        rw [hout]
        apply ih
        · simp
        · rw [underRoot_iff] at hu ⊢
          obtain ⟨segs, hs, hr⟩ := hu
          refine ⟨segs ++ [(c :: tl).takeWhile (fun x => x != '/')], ?_, ?_⟩
          · rw [List.append_assoc, List.singleton_append, splitSlash_append_slash, hs,
              splitSlash_no_slash _ hreal.2]
            rfl
          · intro seg hseg
            rcases List.mem_append.mp hseg with hm | hm
            · exact hr seg hm
            · rw [List.mem_singleton] at hm
              subst hm
              exact hreal.1
        · unfold NoDotDot at hnd ⊢
          have hsplit := List.takeWhile_append_dropWhile (fun x => x != '/') (c :: tl)
          cases hd : (c :: tl).dropWhile (fun x => x != '/') with
          | nil => simp [splitSlash]
          | cons a as =>
            have ha : a = '/' := by
              have := List.head?_dropWhile_not (fun x => x != '/') (c :: tl)
              rw [hd] at this
              simpa using this
            subst ha
            rw [hd] at hsplit
            rw [← hsplit, splitSlash_append_no_slash _ _ hreal.2] at hnd
            rw [splitSlash_cons_slash]
            intro hm
            rcases List.mem_cons.mp hm with h0 | h0
            · exact absurd h0 (by decide)
            · exact hnd (List.mem_cons_of_mem _ h0)

theorem Clean_unrooted (c : Char) (tl : Str) (hc : c ≠ '/') :
    Clean (c :: tl) =
      if (cleanLoop false (c :: tl).length (c :: tl) [] 0).length = 0 then ['.']
      else cleanLoop false (c :: tl).length (c :: tl) [] 0 := by
  unfold Clean
  simp only [if_neg hc]

/-- The name `http.Dir("./static")` opens for any requested name lies under
`static`: no request name leads above the root. -/
theorem fullName_under_static (name : Str) :
    underRoot "static".toList (Dir.fullName "./static".toList name) = true := by
  obtain ⟨t, hq, ht⟩ := Clean_rooted name
  unfold Dir.fullName Dir.localPath filepathJoin
  rw [if_neg (by decide), hq, List.tail_cons]
  by_cases ht0 : t = []
  · rw [if_pos ht0]
    decide
  rw [if_neg ht0]
  have ht : ∀ seg ∈ splitSlash t, realElem seg = true := ht.resolve_left ht0
  have hpath : "./static".toList ++ '/' :: t
      = '.' :: '/' :: 's' :: 't' :: 'a' :: 't' :: 'i' :: 'c' :: '/' :: t := rfl
  rw [hpath]
  have hnd : NoDotDot ('/' :: t) := by
    unfold NoDotDot
    rw [splitSlash_cons_slash]
    intro hm
    simp only [List.mem_cons, reduceCtorEq, false_or] at hm
    exact absurd (ht _ hm) (by decide)
  have hloop : cleanLoop false
      ('.' :: '/' :: 's' :: 't' :: 'a' :: 't' :: 'i' :: 'c' :: '/' :: t).length
      ('.' :: '/' :: 's' :: 't' :: 'a' :: 't' :: 'i' :: 'c' :: '/' :: t) [] 0
      = cleanLoop false (t.length + 6) ('/' :: t) "static".toList 0 := by
    rw [show ('.' :: '/' :: 's' :: 't' :: 'a' :: 't' :: 'i' :: 'c' :: '/' :: t).length
      = (t.length + 6) + 1 + 1 + 1 from by simp only [List.length_cons]]
    rw [cleanLoop_succ, if_neg (by decide), if_pos (by simp), cleanLoop_succ, if_pos rfl,
      cleanLoop_succ, if_neg (by decide), if_neg (by simp), if_neg (by simp)]
    rfl
  have hinv := cleanLoop_unrooted_inv "static".toList (t.length + 6) ('/' :: t)
    "static".toList 0 (by decide) (by decide) hnd
  rw [Clean_unrooted _ _ (by decide), hloop]
  split
  · rename_i h0
    rw [List.length_eq_zero.mp h0] at hinv
    exact absurd hinv (by decide)
  · exact hinv

/-- More fuel than the length of the rest of the path does not change the
result of the loop of `path.Clean`: the loop ends because the path is used
up. -/
theorem cleanLoop_fuel (rooted : Bool) (f1 f2 : Nat) (rest out : Str) (d : Nat)
    (h1 : rest.length ≤ f1) (h2 : rest.length ≤ f2) :
    cleanLoop rooted f1 rest out d = cleanLoop rooted f2 rest out d := by
  induction f1 generalizing f2 rest out d with
  | zero =>
    have : rest = [] := List.length_eq_zero.mp (Nat.le_zero.mp h1)
    subst this
    cases f2 <;> simp [cleanLoop]
  | succ f1 ih =>
    cases f2 with
    | zero =>
      have : rest = [] := List.length_eq_zero.mp (Nat.le_zero.mp h2)
      subst this
      simp [cleanLoop]
    | succ f2 =>
      cases rest with
      | nil => simp [cleanLoop]
      | cons c tl =>
        simp only [List.length_cons, Nat.add_le_add_iff_right] at h1 h2
        have htail : tl.tail.length ≤ tl.length := by simp
        rw [cleanLoop_succ, cleanLoop_succ]
        split
        · exact ih _ _ _ _ h1 h2
        split
        · exact ih _ _ _ _ h1 h2
        split
        · split
          · exact ih _ _ _ _ (by omega) (by omega)
          · split
            · exact ih _ _ _ _ (by omega) (by omega)
            · exact ih _ _ _ _ (by omega) (by omega)
        · rename_i hc _ _
          have hdrop : ((c :: tl).dropWhile (fun x => x != '/')).length ≤ tl.length := by
            have hb : (c != '/') = true := by simpa using hc
            rw [List.dropWhile_cons, hb]
            exact dropWhile_length_le _ _
          exact ih _ _ _ _ (by omega) (by omega)

/-! ### The file responder never leaves its root -/

theorem toHTTPError_forbidden (e : FsError) (h : (toHTTPError e).2 = StatusForbidden) :
    e = .permission := by
  cases e
  · exact absurd h (by decide)
  · rfl
  · exact absurd h (by decide)

/-- `filepath.Localize` returns the path it is given. -/
theorem Localize_eq (path q : Str) (h : Localize path = some q) : q = path := by
  unfold Localize at h
  split at h
  · simp at h
  split at h
  · simp at h
  · exact (Option.some.inj h).symm

/-- `Dir.Open` opens the name `Dir.fullName` or nothing. -/
theorem Dir_Open_eq (fs : FileSystem) (dir name : Str) :
    Dir.Open fs dir name =
      if (Localize (Dir.localPath name)).isSome then fs.osOpen (Dir.fullName dir name)
      else .error .other := by
  unfold Dir.Open
  cases h : Localize (Dir.localPath name) with
  | none => rfl
  | some q =>
    rw [Localize_eq _ _ h]
    rfl

/-- The names `serveFile` serves are names `Dir.Open` opened. -/
theorem serveFile_names (fs : FileSystem) (root urlPath name : Str) (redirect : Bool) (n : Str)
    (h : serveFile fs root urlPath name redirect = .serveContent n ∨
      serveFile fs root urlPath name redirect = .dirList n) :
    ∃ x, n = Dir.fullName root x := by
  unfold serveFile at h
  split at h
  · simp at h
  split at h
  · simp at h
  · simp at h
  split at h
  · simp at h
  split at h
  · split at h
    · simp at h
    · simp at h
  split at h
  · split at h
    · simp at h
    · split at h
      · simp only [FileResponse.serveContent.injEq, reduceCtorEq, or_false] at h
        exact ⟨_, h.symm⟩
      · simp only [reduceCtorEq, FileResponse.dirList.injEq, false_or] at h
        exact ⟨_, h.symm⟩
      · simp only [reduceCtorEq, FileResponse.dirList.injEq, false_or] at h
        exact ⟨_, h.symm⟩
  · simp only [FileResponse.serveContent.injEq, reduceCtorEq, or_false] at h
    exact ⟨_, h.symm⟩

/-- The answer of `serveFile` depends on the file system only through the
names `Dir.Open` opens. -/
theorem serveFile_congr (fs fs2 : FileSystem) (root urlPath name : Str) (redirect : Bool)
    (h : ∀ x, fs2.osOpen (Dir.fullName root x) = fs.osOpen (Dir.fullName root x)) :
    serveFile fs2 root urlPath name redirect = serveFile fs root urlPath name redirect := by
  have hopen : ∀ x, Dir.Open fs2 root x = Dir.Open fs root x := by
    intro x
    rw [Dir_Open_eq, Dir_Open_eq, h]
  unfold serveFile
  simp only [hopen]

/-- A permission error of `Dir.Open` is one of the file system, on the name
it opened. -/
theorem Dir_Open_permission (fs : FileSystem) (root name : Str) (res : OpenResult)
    (hres : res = .error .permission ∨ res = .statError .permission)
    (h : Dir.Open fs root name = res) : fs.osOpen (Dir.fullName root name) = res := by
  rw [Dir_Open_eq] at h
  split at h
  · exact h
  · rcases hres with hres | hres <;> rw [hres] at h <;> simp at h

/-- A `403` of `serveFile` comes from a permission error on a name
`Dir.Open` opened. -/
theorem serveFile_forbidden (fs : FileSystem) (root urlPath name : Str) (redirect : Bool)
    (msg : Str) (h : serveFile fs root urlPath name redirect = .error msg StatusForbidden) :
    ∃ x, fs.osOpen (Dir.fullName root x) = .error .permission ∨
      fs.osOpen (Dir.fullName root x) = .statError .permission := by
  unfold serveFile at h
  split at h
  · simp at h
  split at h
  · rename_i e he
    simp only [FileResponse.error.injEq] at h
    have := toHTTPError_forbidden e h.2
    subst this
    exact ⟨name, Or.inl (Dir_Open_permission fs root name _ (Or.inl rfl) he)⟩
  · rename_i e he
    simp only [FileResponse.error.injEq] at h
    have := toHTTPError_forbidden e h.2
    subst this
    exact ⟨name, Or.inr (Dir_Open_permission fs root name _ (Or.inr rfl) he)⟩
  split at h
  · simp at h
  split at h
  · split at h
    · simp only [FileResponse.error.injEq] at h
      exact absurd h.2 (by decide)
    · simp at h
  split at h
  · split at h
    · simp at h
    · split at h <;> simp at h
  · simp at h

/-- C10, as the code has it: the static file responder cleans the request
path as a rooted path before the lookup, so `..` segments cannot lead to a
name above the root.  Every file or directory it serves was opened under a
name that is `static` or `static/` followed by elements none of which is
empty, `.` or `..`; its answer depends on the file system only through what
opening such names gives; and it answers 403 only when the file system
reports a permission error for such a name.  (Where a name leads on disk is
for the file system to say: a symbolic link under `static` is followed.) -/
theorem fileServer_confined (fs : FileSystem) (r : Request) :
    (∀ n, (fileServer fs r = .serveContent n ∨ fileServer fs r = .dirList n) →
      underRoot "static".toList n = true) ∧
    (∀ fs2 : FileSystem,
      (∀ n, underRoot "static".toList n = true → fs2.osOpen n = fs.osOpen n) →
      fileServer fs2 r = fileServer fs r) ∧
    (∀ msg, fileServer fs r = .error msg StatusForbidden →
      ∃ n, underRoot "static".toList n = true ∧
        (fs.osOpen n = .error .permission ∨ fs.osOpen n = .statError .permission)) := by
  refine ⟨?_, ?_, ?_⟩
  · intro n h
    obtain ⟨x, rfl⟩ := serveFile_names fs _ _ _ _ n h
    exact fullName_under_static x
  · intro fs2 h
    exact serveFile_congr fs fs2 _ _ _ _ (fun x => h _ (fullName_under_static x))
  · intro msg h
    obtain ⟨x, hx⟩ := serveFile_forbidden fs _ _ _ _ msg h
    exact ⟨_, fullName_under_static x, hx⟩

/-- The three parts of the confinement at concrete requests: the path
`/../../etc/passwd` is served from `static/etc/passwd`; the answer for
`/../secret.txt` is the same with and without the files outside `static`; a
permission error under `static` gives the 403. -/
theorem fileServer_confined_witness :
    fileServer sampleFS (NewRequest "GET" "/../../etc/passwd" "" "" "")
        = .serveContent "static/etc/passwd".toList ∧
      underRoot "static".toList "static/etc/passwd".toList = true ∧
      fileServer ⟨fun n => if underRoot "static".toList n then sampleFS.osOpen n
          else .error .notExist⟩ (NewRequest "GET" "/../secret.txt" "" "" "")
        = fileServer sampleFS (NewRequest "GET" "/../secret.txt" "" "" "") ∧
      (∃ n, underRoot "static".toList n = true ∧
        ((⟨fun _ => .error .permission⟩ : FileSystem).osOpen n = .error .permission ∨
          (⟨fun _ => .error .permission⟩ : FileSystem).osOpen n = .statError .permission)) :=
  ⟨by decide,
    (fileServer_confined sampleFS (NewRequest "GET" "/../../etc/passwd" "" "" "")).1 _
      (Or.inl (by decide)),
    (fileServer_confined sampleFS (NewRequest "GET" "/../secret.txt" "" "" "")).2.1 _
      (fun n hn => if_pos hn),
    (fileServer_confined ⟨fun _ => .error .permission⟩
      (NewRequest "GET" "/x" "" "" "")).2.2 "403 Forbidden".toList (by decide)⟩

/-- C10 as stated fails: the request paths `/../secret.txt` and
`/../../etc/passwd` try to leave the root, and the file responder does not
answer 403: the first gets `404 page not found` (the file `secret.txt` outside
the root exists, `static/secret.txt` does not), the second gets the content of
`static/etc/passwd`.  Sent with the dots escaped (`/%2e%2e/secret.txt`,
`/%2e%2e/%2e%2e/etc/passwd`), both requests pass the router of `main`
unchanged and reach the file responder with these paths. -/
theorem fileServer_traversal_not_forbidden :
    (∀ lib : Lib,
      DefaultServeMux.ServeHTTP lib
        (NewEscapedRequest "GET" "/../secret.txt" "/%2e%2e/secret.txt") = .serve .fileServer) ∧
      sampleFS.osOpen "secret.txt".toList = .file false ∧
      fileServer sampleFS (NewEscapedRequest "GET" "/../secret.txt" "/%2e%2e/secret.txt")
        = .error "404 page not found".toList 404 ∧
      (∀ lib : Lib,
        DefaultServeMux.ServeHTTP lib
          (NewEscapedRequest "GET" "/../../etc/passwd" "/%2e%2e/%2e%2e/etc/passwd")
          = .serve .fileServer) ∧
      sampleFS.osOpen "etc/passwd".toList = .file false ∧
      fileServer sampleFS
          (NewEscapedRequest "GET" "/../../etc/passwd" "/%2e%2e/%2e%2e/etc/passwd")
        = .serveContent "static/etc/passwd".toList ∧
      fileServer sampleFS (NewRequest "GET" "/../secret.txt" "" "" "")
        = .error "404 page not found".toList 404 ∧
      fileServer sampleFS (NewRequest "GET" "/../../etc/passwd" "" "" "")
        = .serveContent "static/etc/passwd".toList := by
  refine ⟨fun lib => ?_, by decide, by decide, fun lib => ?_, by decide, by decide, by decide,
    by decide⟩
  · unfold ServeMux.ServeHTTP
    rw [if_neg (by decide),
      findHandler_main lib (NewEscapedRequest "GET" "/../secret.txt" "/%2e%2e/secret.txt")
        rfl rfl]
    decide
  · unfold ServeMux.ServeHTTP
    rw [if_neg (by decide),
      findHandler_main lib
        (NewEscapedRequest "GET" "/../../etc/passwd" "/%2e%2e/%2e%2e/etc/passwd") rfl rfl]
    decide

end GoServer
